import Mathlib

/-!
Component resource model (api/v1alpha1/component_types.go)

The source file declares Go struct types carrying two kinds of annotation:

* `json:"..."` struct tags, which fix how Go's `encoding/json` writes and
  reads each field (key name, `omitempty`, flattening of embedded structs);
* `+kubebuilder:validation:...` markers, from which the CRD's OpenAPI schema
  is generated (a field without `omitempty` is `required`, `Pattern` and
  `MaxLength` become string constraints).

The development below embeds the declared types as Lean structures, the
serialisation induced by the tags as functions to and from a JSON tree, and
the schema induced by the markers as a validator over JSON trees.

Modelling boundary: JSON is handled as a tree, not as text, and its strings
are Unicode texts.  A Go `string` is a sequence of bytes (`GoString`), which
`encoding/json` coerces to valid UTF-8 when writing; Go `int` is `Int` with the
64-bit range checked where a number is decoded.  Types imported from `k8s.io`
are not part of the repository and enter as parameters (`External`).
-/

namespace V1alpha1

open RegularExpression

/-! ## JSON trees -/

/-- A JSON value. Numbers are the integer literals, the only ones the schema of
this file admits. Objects keep their members in order. -/
inductive JSON where
  | null : JSON
  | bool (b : Bool) : JSON
  | num (n : Int) : JSON
  | str (s : String) : JSON
  | arr (items : List JSON) : JSON
  | obj (members : List (String × JSON)) : JSON

/-- The members of a JSON object. -/
abbrev Members := List (String × JSON)

/-- Value stored under key `k` (first occurrence), if any. -/
def getKey (k : String) : Members → Option JSON
  | [] => none
  | (k', v) :: rest => if k' = k then some v else getKey k rest

/-! ## The name pattern `^[a-z0-9]([-a-z0-9]*[a-z0-9])?$` -/

/-- The characters of a range `lo-hi` inside a bracket expression. -/
def charRange (lo hi : Char) : List Char :=
  (List.range' lo.toNat (hi.toNat + 1 - lo.toNat)).map Char.ofNat

/-- A bracket expression `[...]`: one character out of `cs`. -/
def charClass (cs : List Char) : RegularExpression Char :=
  cs.foldr (fun c r => RegularExpression.char c + r) 0

/-- The postfix operator `?`. -/
def opt (r : RegularExpression Char) : RegularExpression Char := 1 + r

/-- The bracket expression `[a-z0-9]`. -/
def alnum : List Char := charRange 'a' 'z' ++ charRange '0' '9'

/-- The bracket expression `[-a-z0-9]`. -/
def dashAlnum : List Char := '-' :: alnum

/-- The expression between the anchors of
`+kubebuilder:validation:Pattern=^[a-z0-9]([-a-z0-9]*[a-z0-9])?$`. -/
def namePattern : RegularExpression Char :=
  charClass alnum * opt (star (charClass dashAlnum) * charClass alnum)

/-- Does `s` match the anchored pattern `^r$`?  Without the multi-line flag `^`
and `$` match only at the two ends of the text, so the whole of `s` has to be
in the language of `r`. -/
def matchesAnchored (r : RegularExpression Char) (s : String) : Bool :=
  r.rmatch s.toList

/-- The shape of a DNS label: non-empty, made of lowercase ASCII letters,
digits and `-`, with no `-` at either end. -/
def DnsLabelShaped (x : List Char) : Prop :=
  x ≠ [] ∧ (∀ c ∈ x, c.isLower = true ∨ c.isDigit = true ∨ c = '-') ∧
    x.head? ≠ some '-' ∧ x.getLast? ≠ some '-'

/-! ## Schema validation of strings -/

/-- What a schema violation is about. -/
inductive Violation where
  | required
  | wrongType
  | tooLong
  | pattern
  deriving DecidableEq, Repr

/-- One entry of a validation report: the offending field and the violation. -/
structure ValidationError where
  field : String
  violation : Violation
  deriving DecidableEq, Repr

/-- Validation of a string against `maxLength` and `pattern`. The length is
counted in characters (code points). Every violated constraint is reported. -/
def validateString (field : String) (maxLength : Option Nat)
    (pattern : Option (RegularExpression Char)) (s : String) : List ValidationError :=
  (match maxLength with
    | some n => if s.length ≤ n then [] else [⟨field, .tooLong⟩]
    | none => []) ++
  (match pattern with
    | some r => if matchesAnchored r s then [] else [⟨field, .pattern⟩]
    | none => [])

instance (x : List Char) : Decidable (DnsLabelShaped x) := by
  unfold DnsLabelShaped; infer_instance

/-! ## Go strings -/

/-- A byte. -/
abbrev Byte := Fin 256

/-- A Go `string`: a sequence of bytes, valid UTF-8 or not. -/
abbrev GoString := List Byte

/-- The byte of value `n` (taken modulo 256). -/
def byte (n : Nat) : Byte := Fin.ofNat n

/-- Go's `utf8.RuneError`, U+FFFD. -/
def runeError : Char := Char.ofNat 0xFFFD

/-- Go's `utf8.AppendRune` on a Unicode scalar value: its UTF-8 encoding. -/
def encodeRune (c : Char) : List Byte :=
  if c.toNat < 0x80 then [byte c.toNat]
  else if c.toNat < 0x800 then [byte (0xC0 + c.toNat / 64), byte (0x80 + c.toNat % 64)]
  else if c.toNat < 0x10000 then
    [byte (0xE0 + c.toNat / 4096), byte (0x80 + c.toNat / 64 % 64), byte (0x80 + c.toNat % 64)]
  else
    [byte (0xF0 + c.toNat / 262144), byte (0x80 + c.toNat / 4096 % 64),
      byte (0x80 + c.toNat / 64 % 64), byte (0x80 + c.toNat % 64)]

/-- Go's `utf8.DecodeRune`: the first rune of `s` and its width in bytes. An
invalid or truncated encoding gives `(RuneError, 1)`, the empty input
`(RuneError, 0)`. -/
def decodeRune (s : List Byte) : Char × Nat :=
  match s with
  | [] => (runeError, 0)
  | b0 :: rest =>
    if b0.val < 0x80 then (Char.ofNat b0.val, 1)
    else if b0.val < 0xC2 ∨ 0xF4 < b0.val then (runeError, 1)
    else
      match rest with
      | [] => (runeError, 1)
      | b1 :: r1 =>
        if b1.val < (if b0.val = 0xE0 then 0xA0 else if b0.val = 0xF0 then 0x90 else 0x80) ∨
            (if b0.val = 0xED then 0x9F else if b0.val = 0xF4 then 0x8F else 0xBF) < b1.val then
          (runeError, 1)
        else if b0.val < 0xE0 then (Char.ofNat (b0.val % 32 * 64 + b1.val % 64), 2)
        else
          match r1 with
          | [] => (runeError, 1)
          | b2 :: r2 =>
            if b2.val < 0x80 ∨ 0xBF < b2.val then (runeError, 1)
            else if b0.val < 0xF0 then
              (Char.ofNat (b0.val % 16 * 4096 + b1.val % 64 * 64 + b2.val % 64), 3)
            else
              match r2 with
              | [] => (runeError, 1)
              | b3 :: _ =>
                if b3.val < 0x80 ∨ 0xBF < b3.val then (runeError, 1)
                else
                  (Char.ofNat (b0.val % 8 * 262144 + b1.val % 64 * 4096 + b2.val % 64 * 64 +
                    b3.val % 64), 4)

/-- The loop of `encoding/json` over a string: rune after rune, every invalid
byte read as U+FFFD. The fuel bounds the number of runes. -/
def decodeLoop : Nat → List Byte → List Char
  | 0, _ => []
  | _ + 1, [] => []
  | fuel + 1, b :: rest =>
    (decodeRune (b :: rest)).1 ::
      decodeLoop fuel ((b :: rest).drop (decodeRune (b :: rest)).2)

/-- The text `encoding/json` writes for a Go string: the string coerced to
valid UTF-8, invalid bytes replaced by U+FFFD. -/
def GoString.text (s : GoString) : String := String.mk (decodeLoop s.length s)

/-- The Go string read from a JSON text: its UTF-8 encoding. -/
def GoString.ofText (t : String) : GoString := t.toList.flatMap encodeRune

/-- A Go string is valid UTF-8 when it is the encoding of a text. -/
def GoString.ValidUTF8 (s : GoString) : Prop := ∃ t : String, s = GoString.ofText t

/-- A Go string after a trip through JSON: written as text, read back. -/
def GoString.coerce (s : GoString) : GoString := GoString.ofText s.text

/-! ## Types imported from `k8s.io` -/

/-- The types `metav1.TypeMeta`, `metav1.ObjectMeta`, `corev1.ResourceRequirements`
and `corev1.EnvVar`, which the file imports and does not declare, with their
JSON codecs, their zero values and their schemas. -/
structure External where
  TypeMeta : Type
  ObjectMeta : Type
  ResourceRequirements : Type
  EnvVar : Type
  /-- Members an embedded `TypeMeta` writes into the enclosing object. -/
  encTypeMeta : TypeMeta → Members
  /-- Reading an embedded `TypeMeta` back from the enclosing object. -/
  decTypeMeta : Members → Option TypeMeta
  encObjectMeta : ObjectMeta → JSON
  decObjectMeta : JSON → Option ObjectMeta
  zeroObjectMeta : ObjectMeta
  encResources : ResourceRequirements → JSON
  decResources : JSON → Option ResourceRequirements
  zeroResources : ResourceRequirements
  encEnvVar : EnvVar → JSON
  decEnvVar : JSON → Option EnvVar
  /-- Schema of `corev1.ResourceRequirements`. -/
  validateResources : JSON → List ValidationError
  /-- Schema of `corev1.EnvVar`. -/
  validateEnvVar : JSON → List ValidationError

/-! ## The declared types -/

/-- Go `type ComponentSrcType string`. -/
abbrev ComponentSrcType := GoString

/-- Constant `GitComponentSrcType`. -/
def GitComponentSrcType : ComponentSrcType := GoString.ofText "Git"

/-- Constant `ImageComponentSrcType`. -/
def ImageComponentSrcType : ComponentSrcType := GoString.ofText "Image"

/-- Marker `+kubebuilder:validation:Enum=Git;Image` on `ComponentSrcType`. -/
def validComponentSrcType (t : ComponentSrcType) : Bool :=
  t == GitComponentSrcType || t == ImageComponentSrcType

/-- Go `type GitSource struct`. -/
structure GitSource where
  /-- Tag `json:"url"` -/
  URL : GoString
  /-- Tag `json:"revision,omitempty"` -/
  Revision : GoString
  /-- Tag `json:"context,omitempty"` -/
  Context : GoString
  /-- Tag `json:"devfileUrl,omitempty"` -/
  DevfileURL : GoString
  /-- Tag `json:"dockerfileUrl,omitempty"` -/
  DockerfileURL : GoString
  deriving DecidableEq, Repr

/-- Go `type ComponentSourceUnion struct` (`+union`). A Go pointer is an `Option`,
`nil` being `none`. -/
structure ComponentSourceUnion where
  /-- Field `GitSource *GitSource json:"git,omitempty"` -/
  GitSource : Option GitSource
  deriving DecidableEq, Repr

/-- Go `type ComponentSource struct`, which embeds `ComponentSourceUnion`. -/
structure ComponentSource extends ComponentSourceUnion
  deriving DecidableEq, Repr

/-- Go `type ComponentSpec struct`. A Go slice is an `Option (List _)`, `nil` being
`none`, so that an empty non-nil slice stays apart from `nil`. -/
structure ComponentSpec (X : External) where
  /-- Tag `json:"componentName"`, `Pattern`, `MaxLength=63` -/
  ComponentName : GoString
  /-- Tag `json:"application"`, `Pattern` -/
  Application : GoString
  /-- Tag `json:"secret,omitempty"` -/
  Secret : GoString
  /-- Tag `json:"source,omitempty"` -/
  Source : ComponentSource
  /-- Tag `json:"resources,omitempty"` -/
  Resources : X.ResourceRequirements
  /-- Tag `json:"replicas,omitempty"` -/
  Replicas : Int
  /-- Tag `json:"targetPort,omitempty"` -/
  TargetPort : Int
  /-- Tag `json:"route,omitempty"` -/
  Route : GoString
  /-- Tag `json:"env,omitempty"` -/
  Env : Option (List X.EnvVar)
  /-- Tag `json:"containerImage,omitempty"` -/
  ContainerImage : GoString
  /-- Tag `json:"skipGitOpsResourceGeneration,omitempty"` -/
  SkipGitOpsResourceGeneration : Bool

/-- Go `type GitOpsStatus struct`. -/
structure GitOpsStatus where
  /-- Tag `json:"repositoryURL,omitempty"` -/
  RepositoryURL : GoString
  /-- Tag `json:"branch,omitempty"` -/
  Branch : GoString
  /-- Tag `json:"context,omitempty"` -/
  Context : GoString
  /-- Tag `json:"resourceGenerationSkipped,omitempty"` -/
  ResourceGenerationSkipped : Bool
  /-- Tag `json:"commitID,omitempty"` -/
  CommitID : GoString
  deriving DecidableEq, Repr

/-- Modelled from the spec: `BindingComponentGitOpsRepository`, the type of
`ComponentStatus.GitOpsRepository`, is declared in another file of the package
that is not available; the spec describes it as "a `GitOpsStatus`-shaped
record", so it is taken to be `GitOpsStatus`. -/
abbrev BindingComponentGitOpsRepository := GitOpsStatus

/-- Go `type ComponentStatus struct`. -/
structure ComponentStatus where
  /-- Tag `json:"name"` -/
  Name : GoString
  /-- Tag `json:"gitopsRepository"` -/
  GitOpsRepository : BindingComponentGitOpsRepository
  deriving DecidableEq, Repr

/-- Go `type Component struct`. -/
structure Component (X : External) where
  /-- Field `metav1.TypeMeta json:",inline"` (embedded) -/
  TypeMeta : X.TypeMeta
  /-- Field `metav1.ObjectMeta json:"metadata,omitempty"` -/
  ObjectMeta : X.ObjectMeta
  /-- Tag `json:"spec"` -/
  Spec : ComponentSpec X
  /-- Tag `json:"status,omitempty"` -/
  Status : ComponentStatus

/-- Is `n` a value of Go's 64-bit `int`? -/
def isInt64 (n : Int) : Bool := decide (-(2 ^ 63) ≤ n ∧ n < 2 ^ 63)

/-- The `int` fields of a component hold 64-bit values. -/
def Component.IntsInRange {X : External} (c : Component X) : Prop :=
  isInt64 c.Spec.Replicas = true ∧ isInt64 c.Spec.TargetPort = true

/-- The `int` fields of a spec hold 64-bit values. -/
def ComponentSpec.IntsInRange {X : External} (s : ComponentSpec X) : Prop :=
  isInt64 s.Replicas = true ∧ isInt64 s.TargetPort = true

instance {X : External} (c : Component X) : Decidable c.IntsInRange := by
  unfold Component.IntsInRange; infer_instance

instance {X : External} (s : ComponentSpec X) : Decidable s.IntsInRange := by
  unfold ComponentSpec.IntsInRange; infer_instance

/-! ## The source union -/

/-- The alternatives of the union that are populated, by JSON name: one
candidate per field of `ComponentSourceUnion`. -/
def populatedAlternatives (u : ComponentSourceUnion) : List String :=
  (match u.GitSource with
    | some _ => ["git"]
    | none => [])

/-- The exclusivity constraint of a `+union`: more than one alternative
populated. -/
def exclusivityViolated (u : ComponentSourceUnion) : Bool :=
  decide (1 < (populatedAlternatives u).length)

/-! ## Serialisation (`encoding/json`, driven by the struct tags)

A struct is written as an object whose members follow the order of the fields.
A field tagged `omitempty` is left out when its value is empty, which
`encoding/json` defines as: `false`, `0`, a nil pointer, a nil interface, and
any empty array, slice, map or string.  A struct value is never empty. -/

/-- A field without `omitempty`. -/
def member (k : String) (v : JSON) : Members := [(k, v)]

/-- A `string` field without `omitempty`: the string as text. -/
def stringMember (k : String) (s : GoString) : Members := [(k, .str s.text)]

/-- A `string` field tagged `omitempty`: left out when of length 0. -/
def stringOmitEmpty (k : String) (s : GoString) : Members :=
  if s = [] then [] else [(k, .str s.text)]

/-- An `int` field tagged `omitempty`. -/
def intOmitEmpty (k : String) (n : Int) : Members :=
  if n = 0 then [] else [(k, .num n)]

/-- A `bool` field tagged `omitempty`. -/
def boolOmitEmpty (k : String) (b : Bool) : Members :=
  if b = false then [] else [(k, .bool b)]

/-- A pointer field tagged `omitempty`. -/
def ptrOmitEmpty {α : Type} (k : String) (enc : α → JSON) : Option α → Members
  | none => []
  | some a => [(k, enc a)]

/-- A slice field tagged `omitempty`: left out when nil and when of length 0. -/
def sliceOmitEmpty {α : Type} (k : String) (enc : α → JSON) : Option (List α) → Members
  | none => []
  | some [] => []
  | some (a :: as) => [(k, .arr ((a :: as).map enc))]

/-- A struct-valued field tagged `omitempty`: a struct is never empty, the
member is always written. -/
def structOmitEmpty (k : String) (v : JSON) : Members := [(k, v)]

/-- Members of a `GitSource`. -/
def gitSourceMembers (g : GitSource) : Members :=
  stringMember "url" g.URL ++
  stringOmitEmpty "revision" g.Revision ++
  stringOmitEmpty "context" g.Context ++
  stringOmitEmpty "devfileUrl" g.DevfileURL ++
  stringOmitEmpty "dockerfileUrl" g.DockerfileURL

/-- JSON of a `GitSource`. -/
def marshalGitSource (g : GitSource) : JSON := .obj (gitSourceMembers g)

/-- Members of a `ComponentSourceUnion`. -/
def unionMembers (u : ComponentSourceUnion) : Members :=
  ptrOmitEmpty "git" marshalGitSource u.GitSource

/-- JSON of a `ComponentSource`: the embedded union is flattened into it. -/
def marshalSource (s : ComponentSource) : JSON := .obj (unionMembers s.toComponentSourceUnion)

/-- Members of a `ComponentSpec`. -/
def specMembers (X : External) (s : ComponentSpec X) : Members :=
  stringMember "componentName" s.ComponentName ++
  stringMember "application" s.Application ++
  stringOmitEmpty "secret" s.Secret ++
  structOmitEmpty "source" (marshalSource s.Source) ++
  structOmitEmpty "resources" (X.encResources s.Resources) ++
  intOmitEmpty "replicas" s.Replicas ++
  intOmitEmpty "targetPort" s.TargetPort ++
  stringOmitEmpty "route" s.Route ++
  sliceOmitEmpty "env" X.encEnvVar s.Env ++
  stringOmitEmpty "containerImage" s.ContainerImage ++
  boolOmitEmpty "skipGitOpsResourceGeneration" s.SkipGitOpsResourceGeneration

/-- JSON of a `ComponentSpec`. -/
def marshalSpec (X : External) (s : ComponentSpec X) : JSON := .obj (specMembers X s)

/-- Members of a `GitOpsStatus`. -/
def gitOpsStatusMembers (g : GitOpsStatus) : Members :=
  stringOmitEmpty "repositoryURL" g.RepositoryURL ++
  stringOmitEmpty "branch" g.Branch ++
  stringOmitEmpty "context" g.Context ++
  boolOmitEmpty "resourceGenerationSkipped" g.ResourceGenerationSkipped ++
  stringOmitEmpty "commitID" g.CommitID

/-- JSON of a `GitOpsStatus`. -/
def marshalGitOpsStatus (g : GitOpsStatus) : JSON := .obj (gitOpsStatusMembers g)

/-- Members of a `ComponentStatus`. -/
def statusMembers (s : ComponentStatus) : Members :=
  stringMember "name" s.Name ++
  member "gitopsRepository" (marshalGitOpsStatus s.GitOpsRepository)

/-- JSON of a `ComponentStatus`. -/
def marshalStatus (s : ComponentStatus) : JSON := .obj (statusMembers s)

/-- Members of a `Component`: those of the embedded `TypeMeta`, then `metadata`,
`spec` and `status`. -/
def componentMembers (X : External) (c : Component X) : Members :=
  X.encTypeMeta c.TypeMeta ++
  structOmitEmpty "metadata" (X.encObjectMeta c.ObjectMeta) ++
  member "spec" (marshalSpec X c.Spec) ++
  structOmitEmpty "status" (marshalStatus c.Status)

/-- JSON of a `Component`. -/
def marshalComponent (X : External) (c : Component X) : JSON := .obj (componentMembers X c)

/-! ## Deserialisation (`encoding/json` into a zero value)

A member that is absent leaves the field at its zero value; `null` leaves a
non-pointer field unchanged and makes a pointer or slice nil; a value of the
wrong JSON type is an error; members with unknown keys are skipped. -/

/-- Reading a `string` field. -/
def decString : Option JSON → Option GoString
  | none => some []
  | some .null => some []
  | some (.str s) => some (GoString.ofText s)
  | some _ => none

/-- Reading an `int` field: the number has to fit 64 bits. -/
def decInt : Option JSON → Option Int
  | none => some 0
  | some .null => some 0
  | some (.num n) => if isInt64 n then some n else none
  | some _ => none

/-- Reading a `bool` field. -/
def decBool : Option JSON → Option Bool
  | none => some false
  | some .null => some false
  | some (.bool b) => some b
  | some _ => none

/-- Reading a pointer field. -/
def decPtr {α : Type} (dec : JSON → Option α) : Option JSON → Option (Option α)
  | none => some none
  | some .null => some none
  | some v => (dec v).map some

/-- Reading the items of an array, in order; an item that cannot be read is an
error. -/
def decItems {α : Type} (dec : JSON → Option α) : List JSON → Option (List α)
  | [] => some []
  | v :: rest => do
    let a ← dec v
    let as ← decItems dec rest
    pure (a :: as)

/-- Reading a slice field. -/
def decSlice {α : Type} (dec : JSON → Option α) : Option JSON → Option (Option (List α))
  | none => some none
  | some .null => some none
  | some (.arr items) => (decItems dec items).map some
  | some _ => none

/-- Reading a struct-valued field: an absent member leaves the zero value, a
present one is handed to the decoder of the field's type. -/
def decStruct {α : Type} (dec : JSON → Option α) (zero : α) : Option JSON → Option α
  | none => some zero
  | some v => dec v

/-- The zero `GitSource`. -/
def GitSource.zero : GitSource := ⟨[], [], [], [], []⟩

/-- The zero `ComponentSource`. -/
def ComponentSource.zero : ComponentSource := ⟨⟨none⟩⟩

/-- The zero `GitOpsStatus`. -/
def GitOpsStatus.zero : GitOpsStatus := ⟨[], [], [], false, []⟩

/-- The zero `ComponentStatus`. -/
def ComponentStatus.zero : ComponentStatus := ⟨[], GitOpsStatus.zero⟩

/-- The zero `ComponentSpec`. -/
def ComponentSpec.zero (X : External) : ComponentSpec X :=
  ⟨[], [], [], ComponentSource.zero, X.zeroResources, 0, 0, [], none, [], false⟩

/-- Reading a `GitSource`. -/
def unmarshalGitSource : JSON → Option GitSource
  | .null => some GitSource.zero
  | .obj m => do
    let url ← decString (getKey "url" m)
    let revision ← decString (getKey "revision" m)
    let context ← decString (getKey "context" m)
    let devfileUrl ← decString (getKey "devfileUrl" m)
    let dockerfileUrl ← decString (getKey "dockerfileUrl" m)
    pure ⟨url, revision, context, devfileUrl, dockerfileUrl⟩
  | _ => none

/-- Reading a `ComponentSource`: the members of the embedded union are looked
up in the object itself. -/
def unmarshalSource : JSON → Option ComponentSource
  | .null => some ComponentSource.zero
  | .obj m => do
    let git ← decPtr unmarshalGitSource (getKey "git" m)
    pure ⟨⟨git⟩⟩
  | _ => none

/-- Reading a `ComponentSpec`. -/
def unmarshalSpec (X : External) : JSON → Option (ComponentSpec X)
  | .null => some (ComponentSpec.zero X)
  | .obj m => do
    let componentName ← decString (getKey "componentName" m)
    let application ← decString (getKey "application" m)
    let secret ← decString (getKey "secret" m)
    let source ← decStruct unmarshalSource ComponentSource.zero (getKey "source" m)
    let resources ← decStruct X.decResources X.zeroResources (getKey "resources" m)
    let replicas ← decInt (getKey "replicas" m)
    let targetPort ← decInt (getKey "targetPort" m)
    let route ← decString (getKey "route" m)
    let env ← decSlice X.decEnvVar (getKey "env" m)
    let containerImage ← decString (getKey "containerImage" m)
    let skip ← decBool (getKey "skipGitOpsResourceGeneration" m)
    pure ⟨componentName, application, secret, source, resources, replicas, targetPort,
      route, env, containerImage, skip⟩
  | _ => none

/-- Reading a `GitOpsStatus`. -/
def unmarshalGitOpsStatus : JSON → Option GitOpsStatus
  | .null => some GitOpsStatus.zero
  | .obj m => do
    let repositoryURL ← decString (getKey "repositoryURL" m)
    let branch ← decString (getKey "branch" m)
    let context ← decString (getKey "context" m)
    let skipped ← decBool (getKey "resourceGenerationSkipped" m)
    let commitID ← decString (getKey "commitID" m)
    pure ⟨repositoryURL, branch, context, skipped, commitID⟩
  | _ => none

/-- Reading a `ComponentStatus`. -/
def unmarshalStatus : JSON → Option ComponentStatus
  | .null => some ComponentStatus.zero
  | .obj m => do
    let name ← decString (getKey "name" m)
    let repo ← decStruct unmarshalGitOpsStatus GitOpsStatus.zero (getKey "gitopsRepository" m)
    pure ⟨name, repo⟩
  | _ => none

/-- Reading a `Component`. -/
def unmarshalComponent (X : External) : JSON → Option (Component X)
  | .obj m => do
    let typeMeta ← X.decTypeMeta m
    let objectMeta ← decStruct X.decObjectMeta X.zeroObjectMeta (getKey "metadata" m)
    let spec ← decStruct (unmarshalSpec X) (ComponentSpec.zero X) (getKey "spec" m)
    let status ← decStruct unmarshalStatus ComponentStatus.zero (getKey "status" m)
    pure ⟨typeMeta, objectMeta, spec, status⟩
  | _ => none

/-! ## The schema generated from the markers

A field whose tag has no `omitempty` is listed under `required`: the member has
to be present.  `Pattern` and `MaxLength` constrain a string.  The type of each
property follows the Go type.  Every violation found is reported. -/

/-- A property of type `string`. -/
def validateStringProp (field : String) (required : Bool) (maxLength : Option Nat)
    (pattern : Option (RegularExpression Char)) : Option JSON → List ValidationError
  | none => if required then [⟨field, .required⟩] else []
  | some (.str s) => validateString field maxLength pattern s
  | some _ => [⟨field, .wrongType⟩]

/-- The property `componentName`: required, `MaxLength=63`,
`Pattern=^[a-z0-9]([-a-z0-9]*[a-z0-9])?$`. -/
def componentNameSchema : Option JSON → List ValidationError :=
  validateStringProp "componentName" true (some 63) (some namePattern)

/-- The property `application`: required,
`Pattern=^[a-z0-9]([-a-z0-9]*[a-z0-9])?$`, no `MaxLength`. -/
def applicationSchema : Option JSON → List ValidationError :=
  validateStringProp "application" true none (some namePattern)

/-- Violations the schema reports for the string `s` given as `componentName`. -/
def validateComponentName (s : String) : List ValidationError :=
  componentNameSchema (some (.str s))

/-- Violations the schema reports for the string `s` given as `application`. -/
def validateApplication (s : String) : List ValidationError :=
  applicationSchema (some (.str s))

/-- A property of type `integer`. -/
def validateIntegerProp (field : String) (required : Bool) : Option JSON → List ValidationError
  | none => if required then [⟨field, .required⟩] else []
  | some (.num _) => []
  | some _ => [⟨field, .wrongType⟩]

/-- A property of type `boolean`. -/
def validateBooleanProp (field : String) (required : Bool) : Option JSON → List ValidationError
  | none => if required then [⟨field, .required⟩] else []
  | some (.bool _) => []
  | some _ => [⟨field, .wrongType⟩]

/-- A property of type `object` with the given schema for its members. -/
def validateObjectProp (field : String) (required : Bool)
    (inner : Members → List ValidationError) : Option JSON → List ValidationError
  | none => if required then [⟨field, .required⟩] else []
  | some (.obj m) => inner m
  | some _ => [⟨field, .wrongType⟩]

/-- A property of type `array` with the given schema for its items. -/
def validateArrayProp (field : String) (required : Bool)
    (item : JSON → List ValidationError) : Option JSON → List ValidationError
  | none => if required then [⟨field, .required⟩] else []
  | some (.arr items) => items.flatMap item
  | some _ => [⟨field, .wrongType⟩]

/-- A property whose schema comes from an imported type. -/
def validateExternalProp (field : String) (required : Bool)
    (schema : JSON → List ValidationError) : Option JSON → List ValidationError
  | none => if required then [⟨field, .required⟩] else []
  | some v => schema v

/-- Schema of `GitSource`: `url` is required, no string is constrained. -/
def validateGitSource (m : Members) : List ValidationError :=
  validateStringProp "source.git.url" true none none (getKey "url" m) ++
  validateStringProp "source.git.revision" false none none (getKey "revision" m) ++
  validateStringProp "source.git.context" false none none (getKey "context" m) ++
  validateStringProp "source.git.devfileUrl" false none none (getKey "devfileUrl" m) ++
  validateStringProp "source.git.dockerfileUrl" false none none (getKey "dockerfileUrl" m)

/-- Schema of `ComponentSource`: the one optional property `git`. -/
def validateSource (m : Members) : List ValidationError :=
  validateObjectProp "source.git" false validateGitSource (getKey "git" m)

/-- Schema of `ComponentSpec`. -/
def validateSpecMembers (X : External) (m : Members) : List ValidationError :=
  componentNameSchema (getKey "componentName" m) ++
  applicationSchema (getKey "application" m) ++
  validateStringProp "secret" false none none (getKey "secret" m) ++
  validateObjectProp "source" false validateSource (getKey "source" m) ++
  validateExternalProp "resources" false X.validateResources (getKey "resources" m) ++
  validateIntegerProp "replicas" false (getKey "replicas" m) ++
  validateIntegerProp "targetPort" false (getKey "targetPort" m) ++
  validateStringProp "route" false none none (getKey "route" m) ++
  validateArrayProp "env" false X.validateEnvVar (getKey "env" m) ++
  validateStringProp "containerImage" false none none (getKey "containerImage" m) ++
  validateBooleanProp "skipGitOpsResourceGeneration" false
    (getKey "skipGitOpsResourceGeneration" m)

/-- Schema validation of a candidate `spec`: the list of violations. -/
def validateSpec (X : External) : JSON → List ValidationError
  | .obj m => validateSpecMembers X m
  | _ => [⟨"spec", .wrongType⟩]

/-- Schema validation accepts a candidate `ComponentSpec` (as submitted, that
is, serialised) when it reports no violation. -/
def specAccepted (X : External) (s : ComponentSpec X) : Prop :=
  validateSpec X (marshalSpec X s) = []

/-! ## Auxiliary notions used to state the properties -/

/-- Does the object have a member with key `k`? -/
def hasKey (k : String) (m : Members) : Bool := m.any (fun p => decide (p.1 = k))

/-- A slice as it comes back from a field tagged `omitempty`: an empty slice
was not written and is read as nil. -/
def nilIfEmpty {α : Type} : Option (List α) → Option (List α)
  | some [] => none
  | xs => xs

/-- The decoders of the imported types read what their encoders write (to
some value, not necessarily the one written).  The embedded `TypeMeta` shares
the object with `metadata`, `spec` and `status`: it writes none of these keys
and is read whatever they hold. -/
structure External.Decodes (X : External) : Prop where
  typeMeta : ∀ (t : X.TypeMeta) (rest : Members),
    (∀ k : String, k ≠ "metadata" → k ≠ "spec" → k ≠ "status" → getKey k rest = none) →
      (X.decTypeMeta (X.encTypeMeta t ++ rest)).isSome = true
  typeMeta_keys : ∀ (t : X.TypeMeta) (k : String),
    k = "metadata" ∨ k = "spec" ∨ k = "status" → getKey k (X.encTypeMeta t) = none
  objectMeta : ∀ m : X.ObjectMeta, (X.decObjectMeta (X.encObjectMeta m)).isSome = true
  resources : ∀ r : X.ResourceRequirements,
    (X.decResources (X.encResources r)).isSome = true
  envVar : ∀ e : X.EnvVar, (X.decEnvVar (X.encEnvVar e)).isSome = true

/-- A `GitSource` after a trip through JSON: every string coerced. -/
def GitSource.coerce (g : GitSource) : GitSource :=
  ⟨g.URL.coerce, g.Revision.coerce, g.Context.coerce, g.DevfileURL.coerce,
    g.DockerfileURL.coerce⟩

/-- A `ComponentSource` after a trip through JSON. -/
def ComponentSource.coerce (s : ComponentSource) : ComponentSource :=
  ⟨⟨s.GitSource.map GitSource.coerce⟩⟩

/-- A `GitOpsStatus` after a trip through JSON. -/
def GitOpsStatus.coerce (g : GitOpsStatus) : GitOpsStatus :=
  ⟨g.RepositoryURL.coerce, g.Branch.coerce, g.Context.coerce, g.ResourceGenerationSkipped,
    g.CommitID.coerce⟩

/-- A `ComponentStatus` after a trip through JSON. -/
def ComponentStatus.coerce (s : ComponentStatus) : ComponentStatus :=
  ⟨s.Name.coerce, s.GitOpsRepository.coerce⟩

/-- Every string of a `GitSource` is valid UTF-8. -/
def GitSource.ValidUTF8 (g : GitSource) : Prop :=
  g.URL.ValidUTF8 ∧ g.Revision.ValidUTF8 ∧ g.Context.ValidUTF8 ∧ g.DevfileURL.ValidUTF8 ∧
    g.DockerfileURL.ValidUTF8

/-- Every string of a `ComponentSource` is valid UTF-8. -/
def ComponentSource.ValidUTF8 (s : ComponentSource) : Prop :=
  ∀ g : GitSource, s.GitSource = some g → g.ValidUTF8

/-- Every string of a `ComponentStatus` is valid UTF-8. -/
def ComponentStatus.ValidUTF8 (s : ComponentStatus) : Prop :=
  s.Name.ValidUTF8 ∧ s.GitOpsRepository.RepositoryURL.ValidUTF8 ∧
    s.GitOpsRepository.Branch.ValidUTF8 ∧ s.GitOpsRepository.Context.ValidUTF8 ∧
    s.GitOpsRepository.CommitID.ValidUTF8

/-- Every string held in a field of a type declared in this file is valid
UTF-8. -/
def Component.ValidUTF8 {X : External} (c : Component X) : Prop :=
  c.Spec.ComponentName.ValidUTF8 ∧ c.Spec.Application.ValidUTF8 ∧ c.Spec.Secret.ValidUTF8 ∧
    c.Spec.Source.ValidUTF8 ∧ c.Spec.Route.ValidUTF8 ∧ c.Spec.ContainerImage.ValidUTF8 ∧
    c.Status.ValidUTF8

/-- Values of the imported types serialise to JSON that their schemas accept. -/
structure External.SchemaSound (X : External) : Prop where
  resources : ∀ r : X.ResourceRequirements, X.validateResources (X.encResources r) = []
  envVar : ∀ e : X.EnvVar, X.validateEnvVar (X.encEnvVar e) = []

/-! ## A concrete instance of the imported types

Used to evaluate the definitions on concrete components.  `TypeMeta` is a pair
kind/apiVersion, `ObjectMeta` a name, `ResourceRequirements` carries nothing and
an environment entry is a name/value pair.  Each follows the tags of the
`k8s.io` type it stands for, restricted to these fields. -/

/-- An environment entry, after `corev1.EnvVar`: `Name string json:"name"` and
`Value string json:"value,omitempty"`. -/
structure NameValue where
  Name : GoString
  Value : GoString
  deriving DecidableEq, Repr

/-- JSON of a name/value entry. -/
def NameValue.enc (e : NameValue) : JSON :=
  .obj (stringMember "name" e.Name ++ stringOmitEmpty "value" e.Value)

/-- Reading a name/value entry. -/
def NameValue.dec : JSON → Option NameValue
  | .obj m => do
    let name ← decString (getKey "name" m)
    let value ← decString (getKey "value" m)
    pure ⟨name, value⟩
  | _ => none

/-- Schema of a name/value entry: `name` is required. -/
def NameValue.validate : JSON → List ValidationError
  | .obj m =>
    validateStringProp "env.name" true none none (getKey "name" m) ++
    validateStringProp "env.value" false none none (getKey "value" m)
  | _ => [⟨"env", .wrongType⟩]

/-- The concrete instance. -/
def External.sample : External where
  TypeMeta := GoString × GoString
  ObjectMeta := GoString
  ResourceRequirements := Unit
  EnvVar := NameValue
  encTypeMeta t := stringOmitEmpty "kind" t.1 ++ stringOmitEmpty "apiVersion" t.2
  decTypeMeta m := do
    let kind ← decString (getKey "kind" m)
    let apiVersion ← decString (getKey "apiVersion" m)
    pure (kind, apiVersion)
  encObjectMeta n := .obj (stringOmitEmpty "name" n)
  decObjectMeta
    | .obj m => decString (getKey "name" m)
    | _ => none
  zeroObjectMeta := []
  encResources _ := .obj []
  decResources
    | .obj _ => some ()
    | _ => none
  zeroResources := ()
  encEnvVar := NameValue.enc
  decEnvVar := NameValue.dec
  validateResources
    | .obj _ => []
    | _ => [⟨"resources", .wrongType⟩]
  validateEnvVar := NameValue.validate

/-- The scenario of the spec: `my-app` in `my-app-group`, built from git. -/
def gitSpec : ComponentSpec External.sample where
  ComponentName := GoString.ofText "my-app"
  Application := GoString.ofText "my-app-group"
  Secret := []
  Source := ⟨⟨some ⟨GoString.ofText "https://example.com/repo.git", [], [], [], []⟩⟩⟩
  Resources := ()
  Replicas := 0
  TargetPort := 0
  Route := []
  Env := some [⟨GoString.ofText "B", GoString.ofText "2"⟩,
    ⟨GoString.ofText "A", GoString.ofText "1"⟩, ⟨GoString.ofText "B", GoString.ofText "2"⟩]
  ContainerImage := []
  SkipGitOpsResourceGeneration := false

/-- The scenario of the spec: `my-app` in `grp`, from an image, no git source. -/
def imageSpec : ComponentSpec External.sample where
  ComponentName := GoString.ofText "my-app"
  Application := GoString.ofText "grp"
  Secret := []
  Source := ⟨⟨none⟩⟩
  Resources := ()
  Replicas := 0
  TargetPort := 0
  Route := []
  Env := none
  ContainerImage := GoString.ofText "quay.io/foo/bar:latest"
  SkipGitOpsResourceGeneration := false

/-- A name of 64 characters, all `a`. -/
def name64 : String := String.mk (List.replicate 64 'a')

/-- The image scenario with an application name of 64 characters. -/
def longApplicationSpec : ComponentSpec External.sample :=
  { imageSpec with Application := GoString.ofText name64 }

/-- The git scenario with the url left empty. -/
def emptyUrlSpec : ComponentSpec External.sample :=
  { gitSpec with Source := ⟨⟨some ⟨[], [], [], [], []⟩⟩⟩ }

/-- A component whose every field is at its zero value. -/
def zeroComponent : Component External.sample where
  TypeMeta := ([], [])
  ObjectMeta := []
  Spec := ComponentSpec.zero External.sample
  Status := ComponentStatus.zero

/-- A status recording the commit `id`. -/
def statusAt (id : String) : ComponentStatus :=
  ⟨GoString.ofText "my-app", ⟨GoString.ofText "https://example.com/gitops.git",
    GoString.ofText "main", GoString.ofText "components/my-app", false, GoString.ofText id⟩⟩

/-- A component with most fields set. -/
def sampleComponent : Component External.sample where
  TypeMeta := (GoString.ofText "Component", GoString.ofText "appstudio.redhat.com/v1alpha1")
  ObjectMeta := GoString.ofText "my-app"
  Spec := { gitSpec with Replicas := 2, TargetPort := 8080, Secret := GoString.ofText "token",
                         SkipGitOpsResourceGeneration := true }
  Status := statusAt "abc123"

/-- The sample component with a `componentName` and a status `name` made of the
single byte `0xFF`, which is not valid UTF-8. -/
def invalidNameComponent : Component External.sample :=
  { sampleComponent with
    Spec := { sampleComponent.Spec with ComponentName := [byte 0xFF] }
    Status := { sampleComponent.Status with Name := [byte 0xFF] } }

/-- The git scenario with one environment entry whose value is the single byte
`0xFF`, which is not valid UTF-8. -/
def invalidEnvSpec : ComponentSpec External.sample :=
  { gitSpec with Env := some [⟨GoString.ofText "A", [byte 0xFF]⟩] }

/-! ## Facts about the name pattern -/

theorem charRange_lower : charRange 'a' 'z' = "abcdefghijklmnopqrstuvwxyz".toList := by
  decide

theorem charRange_digit : charRange '0' '9' = "0123456789".toList := by
  decide

theorem mem_lower_iff (c : Char) : c ∈ charRange 'a' 'z' ↔ c.isLower = true := by
  constructor
  · intro h
    rw [charRange_lower] at h
    simp only [String.toList, List.mem_cons, List.mem_singleton] at h
    rcases h with h | h | h | h | h | h | h | h | h | h | h | h | h | h | h | h | h | h | h | h |
      h | h | h | h | h | h | h <;> first | (subst h; decide) | (simp at h)
  · intro h
    have hc : c = Char.ofNat c.toNat := (Char.ofNat_toNat c).symm
    have h1 : 97 ≤ c.toNat ∧ c.toNat ≤ 122 := by
      simp only [Char.isLower, Bool.and_eq_true, decide_eq_true_eq] at h
      exact ⟨h.1, h.2⟩
    rw [hc]
    generalize c.toNat = n at h1
    obtain ⟨h2, h3⟩ := h1
    interval_cases n <;> decide

theorem mem_digit_iff (c : Char) : c ∈ charRange '0' '9' ↔ c.isDigit = true := by
  constructor
  · intro h
    rw [charRange_digit] at h
    simp only [String.toList, List.mem_cons, List.mem_singleton] at h
    rcases h with h | h | h | h | h | h | h | h | h | h | h <;>
      first | (subst h; decide) | (simp at h)
  · intro h
    have hc : c = Char.ofNat c.toNat := (Char.ofNat_toNat c).symm
    have h1 : 48 ≤ c.toNat ∧ c.toNat ≤ 57 := by
      simp only [Char.isDigit, Bool.and_eq_true, decide_eq_true_eq] at h
      exact ⟨h.1, h.2⟩
    rw [hc]
    generalize c.toNat = n at h1
    obtain ⟨h2, h3⟩ := h1
    interval_cases n <;> decide

theorem mem_alnum_iff (c : Char) : c ∈ alnum ↔ (c.isLower = true ∨ c.isDigit = true) := by
  simp [alnum, mem_lower_iff, mem_digit_iff]

theorem mem_dashAlnum_iff (c : Char) :
    c ∈ dashAlnum ↔ (c.isLower = true ∨ c.isDigit = true ∨ c = '-') := by
  simp only [dashAlnum, List.mem_cons, mem_alnum_iff]
  tauto

theorem dash_not_alnum : '-' ∉ alnum := by
  rw [mem_alnum_iff]; decide

theorem mem_charClass (cs : List Char) (x : List Char) :
    x ∈ (charClass cs).matches' ↔ ∃ c ∈ cs, x = [c] := by
  induction cs with
  | nil => simp [charClass]
  | cons a cs ih =>
    have hstep : charClass (a :: cs) = RegularExpression.char a + charClass cs := rfl
    rw [hstep, matches'_add, Language.mem_add, ih, matches'_char]
    simp only [List.mem_cons, exists_eq_or_imp]
    rfl

theorem mem_star_charClass (cs : List Char) (x : List Char) :
    x ∈ (star (charClass cs)).matches' ↔ ∀ c ∈ x, c ∈ cs := by
  rw [matches'_star, Language.mem_kstar]
  constructor
  · rintro ⟨L, rfl, hL⟩ c hc
    rw [List.mem_flatten] at hc
    obtain ⟨y, hy, hcy⟩ := hc
    obtain ⟨d, hd, rfl⟩ := (mem_charClass cs y).mp (hL y hy)
    rw [List.mem_singleton] at hcy
    exact hcy ▸ hd
  · intro h
    refine ⟨x.map (fun c => [c]), ?_, ?_⟩
    · clear h
      induction x with
      | nil => rfl
      | cons a t ih => simpa using ih
    · intro y hy
      rw [List.mem_map] at hy
      obtain ⟨c, hc, rfl⟩ := hy
      exact (mem_charClass cs [c]).mpr ⟨c, h c hc, rfl⟩

/-- Membership in the language of the name pattern, unfolded along the
structure of the expression. -/
theorem mem_namePattern (x : List Char) :
    x ∈ namePattern.matches' ↔
      ∃ a ∈ alnum, ∃ rest, x = a :: rest ∧
        (rest = [] ∨ ∃ mid b, rest = mid ++ [b] ∧ (∀ c ∈ mid, c ∈ dashAlnum) ∧ b ∈ alnum) := by
  unfold namePattern opt
  rw [matches'_mul, Language.mem_mul]
  constructor
  · rintro ⟨u, hu, v, hv, rfl⟩
    obtain ⟨a, ha, rfl⟩ := (mem_charClass _ _).mp hu
    refine ⟨a, ha, v, rfl, ?_⟩
    rw [matches'_add, Language.mem_add, matches'_epsilon, Language.mem_one,
      matches'_mul, Language.mem_mul] at hv
    rcases hv with hv | ⟨m, hm, w, hw, rfl⟩
    · exact Or.inl hv
    · obtain ⟨b, hb, rfl⟩ := (mem_charClass _ _).mp hw
      exact Or.inr ⟨m, b, rfl, (mem_star_charClass _ _).mp hm, hb⟩
  · rintro ⟨a, ha, rest, rfl, hrest⟩
    refine ⟨[a], (mem_charClass _ _).mpr ⟨a, ha, rfl⟩, rest, ?_, rfl⟩
    rw [matches'_add, Language.mem_add, matches'_epsilon, Language.mem_one,
      matches'_mul, Language.mem_mul]
    rcases hrest with h | ⟨m, b, rfl, hm, hb⟩
    · exact Or.inl h
    · exact Or.inr ⟨m, (mem_star_charClass _ _).mpr hm, [b],
        (mem_charClass _ _).mpr ⟨b, hb, rfl⟩, rfl⟩

/-- The language of the name pattern is the set of DNS-label-shaped texts. -/
theorem mem_namePattern_iff_shape (x : List Char) :
    x ∈ namePattern.matches' ↔ DnsLabelShaped x := by
  rw [mem_namePattern]
  constructor
  · rintro ⟨a, ha, rest, rfl, hrest⟩
    have ha' : a ≠ '-' := fun h => dash_not_alnum (h ▸ ha)
    refine ⟨by simp, ?_, by simpa using ha', ?_⟩
    · intro c hc
      rw [← mem_dashAlnum_iff]
      rcases List.mem_cons.mp hc with rfl | hc
      · exact List.mem_cons_of_mem _ ha
      · rcases hrest with rfl | ⟨m, b, rfl, hm, hb⟩
        · simp at hc
        · rcases List.mem_append.mp hc with h | h
          · exact hm c h
          · rw [List.mem_singleton] at h
            exact h ▸ List.mem_cons_of_mem _ hb
    · rcases hrest with rfl | ⟨m, b, rfl, hm, hb⟩
      · simpa using ha'
      · have hb' : b ≠ '-' := fun h => dash_not_alnum (h ▸ hb)
        rw [← List.cons_append, List.getLast?_append]
        simpa using hb'
  · rintro ⟨hne, hall, hhead, hlast⟩
    cases x with
    | nil => exact absurd rfl hne
    | cons a rest =>
      have ha : a ∈ alnum := by
        rw [mem_alnum_iff]
        rcases hall a (List.mem_cons_self _ _) with h | h | h
        · exact Or.inl h
        · exact Or.inr h
        · exact absurd (by simp [h]) hhead
      refine ⟨a, ha, rest, rfl, ?_⟩
      rcases List.eq_nil_or_concat rest with h | ⟨m, b, h⟩
      · exact Or.inl h
      · right
        rw [List.concat_eq_append] at h
        subst h
        refine ⟨m, b, by simp, ?_, ?_⟩
        · intro c hc
          rw [mem_dashAlnum_iff]
          exact hall c (by simp [hc])
        · rw [mem_alnum_iff]
          rcases hall b (by simp) with h | h | h
          · exact Or.inl h
          · exact Or.inr h
          · exfalso
            apply hlast
            subst h
            rw [← List.cons_append, List.getLast?_append]
            simp

theorem matchesAnchored_iff (s : String) :
    matchesAnchored namePattern s = true ↔ s.toList ∈ namePattern.matches' := by
  unfold matchesAnchored
  rw [rmatch_iff_matches']

/-- What the schema of `componentName` reports for a string. -/
theorem validateComponentName_eq_nil_iff (s : String) :
    validateComponentName s = [] ↔ (s.toList ∈ namePattern.matches' ∧ s.length ≤ 63) := by
  unfold validateComponentName componentNameSchema validateStringProp validateString
  simp only [List.append_eq_nil]
  rw [← matchesAnchored_iff]
  by_cases h1 : s.length ≤ 63 <;> by_cases h2 : matchesAnchored namePattern s = true <;>
    simp [h1, h2]

/-- What the schema of `application` reports for a string. -/
theorem validateApplication_eq_nil_iff (s : String) :
    validateApplication s = [] ↔ s.toList ∈ namePattern.matches' := by
  unfold validateApplication applicationSchema validateStringProp validateString
  rw [← matchesAnchored_iff]
  by_cases h2 : matchesAnchored namePattern s = true <;> simp [h2]

/-- C1. The schema validation declared on `componentName` accepts a string
exactly when the string matches `^[a-z0-9]([-a-z0-9]*[a-z0-9])?$` and has at
most 63 characters; `my-app` is accepted and `My_App` is rejected. -/
theorem componentName_accepted_iff :
    (∀ s : String, validateComponentName s = [] ↔
        (s.toList ∈ namePattern.matches' ∧ s.length ≤ 63)) ∧
      validateComponentName "my-app" = [] ∧ validateComponentName "My_App" ≠ [] :=
  ⟨validateComponentName_eq_nil_iff, by decide, by decide⟩

/-- C3. A string matches the name pattern exactly when it is non-empty, made
of lowercase ASCII letters, digits and `-`, and neither starts nor ends with
`-`.  Hence the empty string and every string containing an uppercase letter
or an underscore fail the pattern, and both `componentName` and `application`
reject them. -/
theorem namePattern_dnsLabel :
    (∀ s : String, s.toList ∈ namePattern.matches' ↔
        (s.toList ≠ [] ∧ (∀ c ∈ s.toList, c.isLower = true ∨ c.isDigit = true ∨ c = '-') ∧
          s.toList.head? ≠ some '-' ∧ s.toList.getLast? ≠ some '-')) ∧
      (validateComponentName "" ≠ [] ∧ validateApplication "" ≠ []) ∧
      (∀ s : String, (∃ c ∈ s.toList, c.isUpper = true ∨ c = '_') →
        validateComponentName s ≠ [] ∧ validateApplication s ≠ []) := by
  refine ⟨fun s => mem_namePattern_iff_shape s.toList, ⟨by decide, by decide⟩, ?_⟩
  rintro s ⟨c, hc, hbad⟩
  have hno : s.toList ∉ namePattern.matches' := by
    intro hm
    obtain ⟨-, hall, -, -⟩ := (mem_namePattern_iff_shape s.toList).mp hm
    have hgood := hall c hc
    rcases hbad with hu | rfl
    · simp only [Char.isUpper, Char.isLower, Char.isDigit, Bool.and_eq_true,
        decide_eq_true_eq] at hu hgood
      rcases hgood with h | h | rfl
      · have h1 : c.toNat ≤ 90 := hu.2
        have h2 : 97 ≤ c.toNat := h.1
        omega
      · have h1 : 65 ≤ c.toNat := hu.1
        have h2 : c.toNat ≤ 57 := h.2
        omega
      · revert hu; decide
    · revert hgood; decide
  constructor
  · rw [Ne, validateComponentName_eq_nil_iff]
    exact fun h => hno h.1
  · rw [Ne, validateApplication_eq_nil_iff]
    exact hno

/-! ## Facts about Go strings -/

theorem byte_val (n : Nat) : (byte n).val = n % 256 := rfl

theorem char_valid (c : Char) : c.toNat < 0xD800 ∨ (0xDFFF < c.toNat ∧ c.toNat < 0x110000) :=
  c.valid

theorem decodeRune_encodeRune (c : Char) (rest : List Byte) :
    decodeRune (encodeRune c ++ rest) = (c, (encodeRune c).length) := by
  have hv := char_valid c
  have hc : Char.ofNat c.toNat = c := Char.ofNat_toNat c
  generalize hn : c.toNat = n at hv hc
  unfold encodeRune
  rw [hn]
  by_cases h1 : n < 0x80
  · simp only [h1, if_true, List.cons_append, List.nil_append, decodeRune, byte_val]
    have : n % 256 = n := by omega
    simp [this, h1, hc]
  · by_cases h2 : n < 0x800
    · simp only [h1, h2, if_true, if_false, List.cons_append, List.nil_append, decodeRune,
        byte_val]
      have e0 : (0xC0 + n / 64) % 256 = 0xC0 + n / 64 := by omega
      have e1 : (0x80 + n % 64) % 256 = 0x80 + n % 64 := by omega
      have c1 : ¬ (0xC0 + n / 64 < 0x80) := by omega
      have c2 : ¬ (0xC0 + n / 64 < 0xC2 ∨ 0xF4 < 0xC0 + n / 64) := by omega
      have c3 : ¬ (0xC0 + n / 64 = 0xE0) := by omega
      have c4 : ¬ (0xC0 + n / 64 = 0xF0) := by omega
      have c5 : ¬ (0xC0 + n / 64 = 0xED) := by omega
      have c6 : ¬ (0xC0 + n / 64 = 0xF4) := by omega
      have c7 : ¬ (0x80 + n % 64 < 0x80 ∨ 0xBF < 0x80 + n % 64) := by omega
      have c8 : 0xC0 + n / 64 < 0xE0 := by omega
      have e : (0xC0 + n / 64) % 32 * 64 + (0x80 + n % 64) % 64 = n := by omega
      simp only [e0, e1, c1, c2, c3, c4, c5, c6, c7, c8, if_true, if_false, e, hc,
        List.length_cons, List.length_nil]
    · by_cases h3 : n < 0x10000
      · simp only [h1, h2, h3, if_true, if_false, List.cons_append, List.nil_append, decodeRune,
          byte_val]
        have e0 : (0xE0 + n / 4096) % 256 = 0xE0 + n / 4096 := by omega
        have e1 : (0x80 + n / 64 % 64) % 256 = 0x80 + n / 64 % 64 := by omega
        have e2 : (0x80 + n % 64) % 256 = 0x80 + n % 64 := by omega
        have c1 : ¬ (0xE0 + n / 4096 < 0x80) := by omega
        have c2 : ¬ (0xE0 + n / 4096 < 0xC2 ∨ 0xF4 < 0xE0 + n / 4096) := by omega
        have c3 : ¬ (0x80 + n / 64 % 64 <
            (if 0xE0 + n / 4096 = 0xE0 then 0xA0
              else if 0xE0 + n / 4096 = 0xF0 then 0x90 else 0x80) ∨
            (if 0xE0 + n / 4096 = 0xED then 0x9F
              else if 0xE0 + n / 4096 = 0xF4 then 0x8F else 0xBF) < 0x80 + n / 64 % 64) := by
          split_ifs <;> omega
        have c4 : ¬ (0xE0 + n / 4096 < 0xE0) := by omega
        have c5 : ¬ (0x80 + n % 64 < 0x80 ∨ 0xBF < 0x80 + n % 64) := by omega
        have c6 : 0xE0 + n / 4096 < 0xF0 := by omega
        have e : (0xE0 + n / 4096) % 16 * 4096 + (0x80 + n / 64 % 64) % 64 * 64 +
            (0x80 + n % 64) % 64 = n := by omega
        simp only [e0, e1, e2, c1, c2, c3, c4, c5, c6, if_true, if_false, e, hc,
          List.length_cons, List.length_nil]
      · simp only [h1, h2, h3, if_true, if_false, List.cons_append, List.nil_append, decodeRune,
          byte_val]
        have e0 : (0xF0 + n / 262144) % 256 = 0xF0 + n / 262144 := by omega
        have e1 : (0x80 + n / 4096 % 64) % 256 = 0x80 + n / 4096 % 64 := by omega
        have e2 : (0x80 + n / 64 % 64) % 256 = 0x80 + n / 64 % 64 := by omega
        have e3 : (0x80 + n % 64) % 256 = 0x80 + n % 64 := by omega
        have c1 : ¬ (0xF0 + n / 262144 < 0x80) := by omega
        have c2 : ¬ (0xF0 + n / 262144 < 0xC2 ∨ 0xF4 < 0xF0 + n / 262144) := by omega
        have c3 : ¬ (0x80 + n / 4096 % 64 <
            (if 0xF0 + n / 262144 = 0xE0 then 0xA0
              else if 0xF0 + n / 262144 = 0xF0 then 0x90 else 0x80) ∨
            (if 0xF0 + n / 262144 = 0xED then 0x9F
              else if 0xF0 + n / 262144 = 0xF4 then 0x8F else 0xBF) <
                0x80 + n / 4096 % 64) := by
          split_ifs <;> omega
        have c4 : ¬ (0xF0 + n / 262144 < 0xE0) := by omega
        have c5 : ¬ (0x80 + n / 64 % 64 < 0x80 ∨ 0xBF < 0x80 + n / 64 % 64) := by omega
        have c6 : ¬ (0xF0 + n / 262144 < 0xF0) := by omega
        have c7 : ¬ (0x80 + n % 64 < 0x80 ∨ 0xBF < 0x80 + n % 64) := by omega
        have e : (0xF0 + n / 262144) % 8 * 262144 + (0x80 + n / 4096 % 64) % 64 * 4096 +
            (0x80 + n / 64 % 64) % 64 * 64 + (0x80 + n % 64) % 64 = n := by omega
        simp only [e0, e1, e2, e3, c1, c2, c3, c4, c5, c6, c7, if_true, if_false, e, hc,
          List.length_cons, List.length_nil]

theorem encodeRune_ne_nil (c : Char) : encodeRune c ≠ [] := by
  unfold encodeRune
  split_ifs <;> simp

theorem decodeLoop_encode (cs : List Char) (rest : List Byte) :
    ∀ fuel : Nat, cs.length ≤ fuel →
      decodeLoop fuel (cs.flatMap encodeRune ++ rest) =
        cs ++ decodeLoop (fuel - cs.length) rest := by
  induction cs with
  | nil => intro fuel _; simp
  | cons c t ih =>
    intro fuel hfuel
    obtain ⟨f, rfl⟩ : ∃ f, fuel = f + 1 := ⟨fuel - 1, by simp at hfuel; omega⟩
    have hdec := decodeRune_encodeRune c (t.flatMap encodeRune ++ rest)
    have hne := encodeRune_ne_nil c
    rw [List.flatMap_cons, List.append_assoc]
    cases hb : encodeRune c with
    | nil => exact absurd hb hne
    | cons b bs =>
      rw [hb, List.cons_append] at hdec
      rw [List.cons_append, decodeLoop, hdec]
      simp only [List.length_cons, List.drop_succ_cons]
      rw [List.drop_left', ih f (by simpa using hfuel)]
      · simp
      · rfl

theorem text_ofText (t : String) : (GoString.ofText t).text = t := by
  unfold GoString.text GoString.ofText
  have hlen : t.toList.length ≤ (t.toList.flatMap encodeRune).length := by
    induction t.toList with
    | nil => simp
    | cons c l ih =>
      have := encodeRune_ne_nil c
      have h1 : 1 ≤ (encodeRune c).length := by
        cases h : encodeRune c with
        | nil => exact absurd h this
        | cons _ _ => simp
      simp only [List.flatMap_cons, List.length_cons, List.length_append]
      omega
  have h := decodeLoop_encode t.toList [] _ hlen
  rw [List.append_nil] at h
  rw [h]
  have hnil : ∀ k, decodeLoop k [] = [] := by intro k; cases k <;> rfl
  rw [hnil, List.append_nil]
  rfl

theorem coerce_of_valid (s : GoString) (h : s.ValidUTF8) : s.coerce = s := by
  obtain ⟨t, rfl⟩ := h
  unfold GoString.coerce
  rw [text_ofText]

/-! ## Looking up members of serialised values -/

theorem getKey_append (k : String) (a b : Members) :
    getKey k (a ++ b) = (getKey k a).or (getKey k b) := by
  induction a with
  | nil => simp [getKey]
  | cons p rest ih =>
    obtain ⟨k', v⟩ := p
    by_cases h : k' = k <;> simp [getKey, h, ih]

theorem getKey_member (k k' : String) (v : JSON) :
    getKey k (member k' v) = if k' = k then some v else none := by
  simp [member, getKey]

theorem getKey_structOmitEmpty (k k' : String) (v : JSON) :
    getKey k (structOmitEmpty k' v) = if k' = k then some v else none := by
  simp [structOmitEmpty, getKey]

theorem getKey_stringMember (k k' : String) (s : GoString) :
    getKey k (stringMember k' s) = if k' = k then some (.str s.text) else none := by
  simp [stringMember, getKey]

theorem getKey_stringOmitEmpty (k k' : String) (s : GoString) :
    getKey k (stringOmitEmpty k' s) =
      if k' = k then (if s = [] then none else some (.str s.text)) else none := by
  unfold stringOmitEmpty
  by_cases hs : s = [] <;> by_cases h : k' = k <;> simp [getKey, hs, h]

theorem getKey_intOmitEmpty (k k' : String) (n : Int) :
    getKey k (intOmitEmpty k' n) =
      if k' = k then (if n = 0 then none else some (.num n)) else none := by
  unfold intOmitEmpty
  by_cases hs : n = 0 <;> by_cases h : k' = k <;> simp [getKey, hs, h]

theorem getKey_boolOmitEmpty (k k' : String) (b : Bool) :
    getKey k (boolOmitEmpty k' b) =
      if k' = k then (if b = false then none else some (.bool b)) else none := by
  unfold boolOmitEmpty
  by_cases hs : b = false <;> by_cases h : k' = k <;> simp [getKey, hs, h]

theorem getKey_ptrOmitEmpty {α : Type} (k k' : String) (enc : α → JSON) (p : Option α) :
    getKey k (ptrOmitEmpty k' enc p) = if k' = k then p.map enc else none := by
  cases p <;> by_cases h : k' = k <;> simp [ptrOmitEmpty, getKey, h]

theorem getKey_sliceOmitEmpty {α : Type} (k k' : String) (enc : α → JSON)
    (xs : Option (List α)) :
    getKey k (sliceOmitEmpty k' enc xs) =
      if k' = k then (nilIfEmpty xs).map (fun l => .arr (l.map enc)) else none := by
  rcases xs with _ | _ | ⟨a, l⟩ <;> by_cases h : k' = k <;>
    simp [sliceOmitEmpty, nilIfEmpty, getKey, h]

/-- The member stored under each key of a serialised `ComponentSpec`. -/
theorem getKey_specMembers (X : External) (s : ComponentSpec X) :
    getKey "componentName" (specMembers X s) = some (.str s.ComponentName.text) ∧
    getKey "application" (specMembers X s) = some (.str s.Application.text) ∧
    getKey "secret" (specMembers X s) =
      (if s.Secret = [] then none else some (.str s.Secret.text)) ∧
    getKey "source" (specMembers X s) = some (marshalSource s.Source) ∧
    getKey "resources" (specMembers X s) = some (X.encResources s.Resources) ∧
    getKey "replicas" (specMembers X s) =
      (if s.Replicas = 0 then none else some (.num s.Replicas)) ∧
    getKey "targetPort" (specMembers X s) =
      (if s.TargetPort = 0 then none else some (.num s.TargetPort)) ∧
    getKey "route" (specMembers X s) =
      (if s.Route = [] then none else some (.str s.Route.text)) ∧
    getKey "env" (specMembers X s) =
      (nilIfEmpty s.Env).map (fun l => .arr (l.map X.encEnvVar)) ∧
    getKey "containerImage" (specMembers X s) =
      (if s.ContainerImage = [] then none else some (.str s.ContainerImage.text)) ∧
    getKey "skipGitOpsResourceGeneration" (specMembers X s) =
      (if s.SkipGitOpsResourceGeneration = false then none
        else some (.bool s.SkipGitOpsResourceGeneration)) := by
  simp [specMembers, getKey_append, getKey_stringMember, getKey_structOmitEmpty,
    getKey_stringOmitEmpty, getKey_intOmitEmpty, getKey_boolOmitEmpty, getKey_sliceOmitEmpty]

/-- The member stored under each key of a serialised `GitSource`. -/
theorem getKey_gitSourceMembers (g : GitSource) :
    getKey "url" (gitSourceMembers g) = some (.str g.URL.text) ∧
    getKey "revision" (gitSourceMembers g) =
      (if g.Revision = [] then none else some (.str g.Revision.text)) ∧
    getKey "context" (gitSourceMembers g) =
      (if g.Context = [] then none else some (.str g.Context.text)) ∧
    getKey "devfileUrl" (gitSourceMembers g) =
      (if g.DevfileURL = [] then none else some (.str g.DevfileURL.text)) ∧
    getKey "dockerfileUrl" (gitSourceMembers g) =
      (if g.DockerfileURL = [] then none else some (.str g.DockerfileURL.text)) := by
  simp [gitSourceMembers, getKey_append, getKey_stringMember, getKey_stringOmitEmpty]

/-- The member stored under each key of a serialised `GitOpsStatus`. -/
theorem getKey_gitOpsStatusMembers (g : GitOpsStatus) :
    getKey "repositoryURL" (gitOpsStatusMembers g) =
      (if g.RepositoryURL = [] then none else some (.str g.RepositoryURL.text)) ∧
    getKey "branch" (gitOpsStatusMembers g) =
      (if g.Branch = [] then none else some (.str g.Branch.text)) ∧
    getKey "context" (gitOpsStatusMembers g) =
      (if g.Context = [] then none else some (.str g.Context.text)) ∧
    getKey "resourceGenerationSkipped" (gitOpsStatusMembers g) =
      (if g.ResourceGenerationSkipped = false then none
        else some (.bool g.ResourceGenerationSkipped)) ∧
    getKey "commitID" (gitOpsStatusMembers g) =
      (if g.CommitID = [] then none else some (.str g.CommitID.text)) := by
  simp [gitOpsStatusMembers, getKey_append, getKey_boolOmitEmpty, getKey_stringOmitEmpty]

/-- The member stored under each key of a serialised `ComponentStatus`. -/
theorem getKey_statusMembers (s : ComponentStatus) :
    getKey "name" (statusMembers s) = some (.str s.Name.text) ∧
    getKey "gitopsRepository" (statusMembers s) =
      some (marshalGitOpsStatus s.GitOpsRepository) := by
  simp [statusMembers, getKey_append, getKey_member, getKey_stringMember]

/-! ## Schema validation of serialised values -/

theorem validate_optionalString (field : String) (s : GoString) :
    validateStringProp field false none none
      (if s = [] then none else some (.str s.text)) = [] := by
  by_cases h : s = [] <;> simp [validateStringProp, validateString, h]

theorem validate_optionalInt (field : String) (n : Int) :
    validateIntegerProp field false (if n = 0 then none else some (.num n)) = [] := by
  by_cases h : n = 0 <;> simp [validateIntegerProp, h]

theorem validate_optionalBool (field : String) (b : Bool) :
    validateBooleanProp field false (if b = false then none else some (.bool b)) = [] := by
  cases b <;> simp [validateBooleanProp]

/-- A serialised `GitSource` satisfies its schema, whatever its fields hold. -/
theorem validateGitSource_marshal (g : GitSource) :
    validateGitSource (gitSourceMembers g) = [] := by
  obtain ⟨h1, h2, h3, h4, h5⟩ := getKey_gitSourceMembers g
  unfold validateGitSource
  rw [h1, h2, h3, h4, h5]
  simp only [validate_optionalString, List.append_nil]
  simp [validateStringProp, validateString]

/-- A serialised `ComponentSource` satisfies its schema. -/
theorem validateSource_marshal (s : ComponentSource) :
    validateObjectProp "source" false validateSource (some (marshalSource s)) = [] := by
  obtain ⟨⟨g⟩⟩ := s
  cases g with
  | none => simp [validateObjectProp, marshalSource, unionMembers, ptrOmitEmpty,
      validateSource, getKey]
  | some g =>
    simp [validateObjectProp, marshalSource, unionMembers, ptrOmitEmpty,
      validateSource, getKey, marshalGitSource, validateGitSource_marshal]

theorem validate_env (X : External) (env : Option (List X.EnvVar)) :
    validateArrayProp "env" false X.validateEnvVar
        ((nilIfEmpty env).map (fun l => .arr (l.map X.encEnvVar))) = [] ↔
      ∀ e ∈ env.getD [], X.validateEnvVar (X.encEnvVar e) = [] := by
  rcases env with _ | _ | ⟨a, l⟩
  · simp [nilIfEmpty, validateArrayProp]
  · simp [nilIfEmpty, validateArrayProp]
  · simp [nilIfEmpty, validateArrayProp, List.flatMap_eq_nil_iff]

/-- What schema validation reports for a serialised `ComponentSpec`: the
violations of `componentName`, of `application` and of the imported types. -/
theorem validateSpec_marshal (X : External) (s : ComponentSpec X) :
    validateSpec X (marshalSpec X s) =
      validateComponentName s.ComponentName.text ++ validateApplication s.Application.text ++
        X.validateResources (X.encResources s.Resources) ++
        validateArrayProp "env" false X.validateEnvVar
          ((nilIfEmpty s.Env).map (fun l => .arr (l.map X.encEnvVar))) := by
  obtain ⟨h1, h2, h3, h4, h5, h6, h7, h8, h9, h10, h11⟩ := getKey_specMembers X s
  unfold marshalSpec validateSpec validateSpecMembers
  simp only [h1, h2, h3, h4, h5, h6, h7, h8, h9, h10, h11]
  simp only [validate_optionalString, validate_optionalInt, validate_optionalBool,
    validateSource_marshal, validateExternalProp, List.append_nil, List.append_assoc]
  rfl

/-- Acceptance of a candidate `ComponentSpec`, field by field. -/
theorem specAccepted_iff (X : External) (s : ComponentSpec X) :
    specAccepted X s ↔
      validateComponentName s.ComponentName.text = [] ∧
        validateApplication s.Application.text = [] ∧
        X.validateResources (X.encResources s.Resources) = [] ∧
        ∀ e ∈ s.Env.getD [], X.validateEnvVar (X.encEnvVar e) = [] := by
  unfold specAccepted
  rw [validateSpec_marshal]
  simp only [List.append_eq_nil, validate_env, and_assoc]

/-! ## Reading back what was written, field by field -/

theorem decString_text (s : GoString) : decString (some (.str s.text)) = some s.coerce := rfl

theorem decString_omitEmpty (s : GoString) :
    decString (if s = [] then none else some (.str s.text)) = some s.coerce := by
  by_cases h : s = []
  · subst h; rfl
  · simp [decString, h, GoString.coerce]

theorem decInt_omitEmpty (n : Int) (h : isInt64 n = true) :
    decInt (if n = 0 then none else some (.num n)) = some n := by
  by_cases h0 : n = 0 <;> simp [decInt, h0, h]

theorem decBool_omitEmpty (b : Bool) :
    decBool (if b = false then none else some (.bool b)) = some b := by
  cases b <;> simp [decBool]

/-! ## The concrete instance satisfies the assumptions on imported types -/

theorem sample_schemaSound : External.sample.SchemaSound where
  resources := fun _ => rfl
  envVar := fun e => by
    show NameValue.validate (NameValue.enc e) = []
    simp only [NameValue.validate, NameValue.enc, getKey_append, getKey_stringMember,
      getKey_stringOmitEmpty]
    simp only [String.reduceEq, if_true, if_false, Option.or_none, Option.none_or, Option.or,
      validate_optionalString, List.append_nil]
    simp [validateStringProp, validateString]

theorem sample_decodes : External.sample.Decodes where
  typeMeta := fun t rest hrest => by
    obtain ⟨kind, apiVersion⟩ := t
    show (do
      let k ← decString (getKey "kind"
        ((stringOmitEmpty "kind" kind ++ stringOmitEmpty "apiVersion" apiVersion) ++ rest))
      let a ← decString (getKey "apiVersion"
        ((stringOmitEmpty "kind" kind ++ stringOmitEmpty "apiVersion" apiVersion) ++ rest))
      pure (k, a)).isSome = true
    simp only [getKey_append, getKey_stringOmitEmpty,
      hrest "kind" (by decide) (by decide) (by decide),
      hrest "apiVersion" (by decide) (by decide) (by decide)]
    simp only [String.reduceEq, if_true, if_false, Option.or_none, Option.none_or,
      decString_omitEmpty]
    rfl
  typeMeta_keys := fun t k hk => by
    show getKey k (stringOmitEmpty "kind" t.1 ++ stringOmitEmpty "apiVersion" t.2) = none
    rcases hk with rfl | rfl | rfl <;>
      simp [getKey_append, getKey_stringOmitEmpty]
  objectMeta := fun m => by
    show (decString (getKey "name" (stringOmitEmpty "name" m))).isSome = true
    simp only [getKey_stringOmitEmpty, if_true, decString_omitEmpty]
    rfl
  resources := fun _ => rfl
  envVar := fun e => by
    obtain ⟨name, value⟩ := e
    show (NameValue.dec (NameValue.enc ⟨name, value⟩)).isSome = true
    simp only [NameValue.dec, NameValue.enc, getKey_append, getKey_stringMember,
      getKey_stringOmitEmpty]
    simp only [String.reduceEq, if_true, if_false, Option.or_none, Option.none_or, Option.or,
      decString_omitEmpty, decString_text]
    rfl

/-! ## Claims about schema validation of a candidate spec -/

/-- C2, refuted as stated. An application name of 64 characters that matches the
pattern is accepted. -/
theorem application_over_63_accepted :
    63 < longApplicationSpec.Application.text.length ∧
      validateSpec External.sample (marshalSpec External.sample longApplicationSpec) = [] := by
  refine ⟨by decide, ?_⟩
  have h1 : longApplicationSpec.ComponentName.text = "my-app" := text_ofText _
  have h2 : longApplicationSpec.Application.text = name64 := text_ofText _
  rw [validateSpec_marshal, h1, h2]
  decide

/-- C2, amended. For a candidate whose `application` is longer than 63
characters (the imported types being schema-sound), validation accepts exactly
when `componentName` is valid and `application` matches the name pattern: no
length bound is declared on `application`. -/
theorem application_checked_against_pattern_only (X : External) (hX : X.SchemaSound)
    (s : ComponentSpec X) (_hlong : 63 < s.Application.text.length) :
    specAccepted X s ↔
      (validateComponentName s.ComponentName.text = [] ∧
        s.Application.text.toList ∈ namePattern.matches') := by
  rw [specAccepted_iff, validateApplication_eq_nil_iff]
  constructor
  · exact fun h => ⟨h.1, h.2.1⟩
  · exact fun h => ⟨h.1, h.2, hX.resources _, fun e _ => hX.envVar e⟩

theorem application_checked_against_pattern_only_witness :
    63 < longApplicationSpec.Application.text.length ∧
      (specAccepted External.sample longApplicationSpec ↔
        (validateComponentName longApplicationSpec.ComponentName.text = [] ∧
          longApplicationSpec.Application.text.toList ∈ namePattern.matches')) :=
  ⟨by decide, application_checked_against_pattern_only External.sample sample_schemaSound
    longApplicationSpec (by decide)⟩

/-- C4, refuted as stated. A candidate with the git alternative populated and
an empty `url` is accepted. -/
theorem empty_git_url_accepted :
    emptyUrlSpec.Source.GitSource = some ⟨[], [], [], [], []⟩ ∧
      validateSpec External.sample (marshalSpec External.sample emptyUrlSpec) = [] := by
  decide

/-- C4, amended. With the git alternative populated, the schema requires the
member `url` under `source.git` to be present (an object without it is
reported), and a serialised spec always carries it; its value is not
constrained, so the candidate is accepted exactly when `componentName` and
`application` are valid, whatever `url` holds (the imported types being
schema-sound). -/
theorem git_url_required_but_unconstrained (X : External) (hX : X.SchemaSound)
    (s : ComponentSpec X) (g : GitSource) (_hgit : s.Source.GitSource = some g) :
    (∀ m : Members, getKey "url" m = none →
        ⟨"source.git.url", Violation.required⟩ ∈ validateGitSource m) ∧
      getKey "url" (gitSourceMembers g) = some (.str g.URL.text) ∧
      (specAccepted X s ↔
        (validateComponentName s.ComponentName.text = [] ∧
          validateApplication s.Application.text = [])) := by
  refine ⟨?_, (getKey_gitSourceMembers g).1, ?_⟩
  · intro m hm
    simp [validateGitSource, hm, validateStringProp]
  · rw [specAccepted_iff]
    constructor
    · exact fun h => ⟨h.1, h.2.1⟩
    · exact fun h => ⟨h.1, h.2, hX.resources _, fun e _ => hX.envVar e⟩

theorem git_url_required_but_unconstrained_witness :
    emptyUrlSpec.Source.GitSource = some ⟨[], [], [], [], []⟩ ∧
      ((∀ m : Members, getKey "url" m = none →
          ⟨"source.git.url", Violation.required⟩ ∈ validateGitSource m) ∧
        getKey "url" (gitSourceMembers ⟨[], [], [], [], []⟩) =
          some (.str (GoString.text [])) ∧
        (specAccepted External.sample emptyUrlSpec ↔
          (validateComponentName emptyUrlSpec.ComponentName.text = [] ∧
            validateApplication emptyUrlSpec.Application.text = []))) :=
  ⟨rfl, git_url_required_but_unconstrained External.sample sample_schemaSound emptyUrlSpec
    ⟨[], [], [], [], []⟩ rfl⟩

/-- C5. A candidate whose `componentName` and `application` are valid and whose
`source.git` is absent is accepted whatever `containerImage` holds, the empty
string included (the imported types being schema-sound). -/
theorem no_origin_accepted (X : External) (hX : X.SchemaSound) (s : ComponentSpec X)
    (hname : validateComponentName s.ComponentName.text = [])
    (happ : validateApplication s.Application.text = [])
    (_hgit : s.Source.GitSource = none) :
    ∀ image : GoString, specAccepted X { s with ContainerImage := image } := by
  intro image
  rw [specAccepted_iff]
  exact ⟨hname, happ, hX.resources _, fun e _ => hX.envVar e⟩

theorem no_origin_accepted_witness :
    validateComponentName imageSpec.ComponentName.text = [] ∧
      validateApplication imageSpec.Application.text = [] ∧
      imageSpec.Source.GitSource = none ∧
      ∀ image : GoString,
        specAccepted External.sample { imageSpec with ContainerImage := image } :=
  ⟨by decide, by decide, rfl,
    no_origin_accepted External.sample sample_schemaSound imageSpec (by decide) (by decide) rfl⟩

/-- C6. Every value of the union type has zero or one populated alternative,
so the exclusivity constraint is violated by no value. -/
theorem union_at_most_one_alternative (u : ComponentSourceUnion) :
    ((populatedAlternatives u).length = 0 ∨ (populatedAlternatives u).length = 1) ∧
      exclusivityViolated u = false := by
  obtain ⟨g⟩ := u
  cases g <;> simp [populatedAlternatives, exclusivityViolated]

/-! ## Presence of members in serialised values -/

theorem hasKey_append (k : String) (a b : Members) :
    hasKey k (a ++ b) = (hasKey k a || hasKey k b) := by
  simp [hasKey]

theorem hasKey_member (k k' : String) (v : JSON) :
    hasKey k (member k' v) = decide (k' = k) := by
  simp [hasKey, member]

theorem hasKey_stringMember (k k' : String) (s : GoString) :
    hasKey k (stringMember k' s) = decide (k' = k) := by
  simp [hasKey, stringMember]

theorem hasKey_structOmitEmpty (k k' : String) (v : JSON) :
    hasKey k (structOmitEmpty k' v) = decide (k' = k) := by
  simp [hasKey, structOmitEmpty]

theorem hasKey_stringOmitEmpty (k k' : String) (s : GoString) :
    hasKey k (stringOmitEmpty k' s) = (decide (k' = k) && decide (s ≠ [])) := by
  unfold stringOmitEmpty
  by_cases hs : s = [] <;> simp [hasKey, hs]

theorem hasKey_intOmitEmpty (k k' : String) (n : Int) :
    hasKey k (intOmitEmpty k' n) = (decide (k' = k) && decide (n ≠ 0)) := by
  unfold intOmitEmpty
  by_cases hs : n = 0 <;> simp [hasKey, hs]

theorem hasKey_boolOmitEmpty (k k' : String) (b : Bool) :
    hasKey k (boolOmitEmpty k' b) = (decide (k' = k) && b) := by
  cases b <;> simp [hasKey, boolOmitEmpty]

theorem hasKey_ptrOmitEmpty {α : Type} (k k' : String) (enc : α → JSON) (p : Option α) :
    hasKey k (ptrOmitEmpty k' enc p) = (decide (k' = k) && p.isSome) := by
  cases p <;> simp [hasKey, ptrOmitEmpty]

theorem hasKey_sliceOmitEmpty {α : Type} (k k' : String) (enc : α → JSON)
    (xs : Option (List α)) :
    hasKey k (sliceOmitEmpty k' enc xs) = (decide (k' = k) && (nilIfEmpty xs).isSome) := by
  rcases xs with _ | _ | ⟨a, l⟩ <;> simp [hasKey, sliceOmitEmpty, nilIfEmpty]

/-- C7, refuted as stated. In the component whose every field is at its zero
value, the struct-valued fields `source` and `status`, both tagged `omitempty`,
are written all the same. -/
theorem zero_structs_are_written :
    zeroComponent.Spec.Source = ComponentSource.zero ∧
      zeroComponent.Status = ComponentStatus.zero ∧
      hasKey "source" (specMembers External.sample zeroComponent.Spec) = true ∧
      hasKey "status" (componentMembers External.sample zeroComponent) = true := by
  decide

/-- C7, amended. A field tagged `omitempty` whose Go type is a string, an
integer, a boolean, a slice or a pointer is absent from the serialised object
exactly when its value is the zero value (for `env` also when the slice is
empty); the struct-valued fields `source`, `resources` and `status` are always
written, `source` and `status` as the objects of their members and `resources`
as what its imported encoder gives. -/
theorem omitempty_absent_unless_struct (X : External) (c : Component X) (g : GitSource)
    (r : GitOpsStatus) :
    ((hasKey "secret" (specMembers X c.Spec) = false ↔ c.Spec.Secret = []) ∧
      (hasKey "route" (specMembers X c.Spec) = false ↔ c.Spec.Route = []) ∧
      (hasKey "containerImage" (specMembers X c.Spec) = false ↔ c.Spec.ContainerImage = []) ∧
      (hasKey "revision" (gitSourceMembers g) = false ↔ g.Revision = []) ∧
      (hasKey "context" (gitSourceMembers g) = false ↔ g.Context = []) ∧
      (hasKey "devfileUrl" (gitSourceMembers g) = false ↔ g.DevfileURL = []) ∧
      (hasKey "dockerfileUrl" (gitSourceMembers g) = false ↔ g.DockerfileURL = []) ∧
      (hasKey "repositoryURL" (gitOpsStatusMembers r) = false ↔ r.RepositoryURL = []) ∧
      (hasKey "branch" (gitOpsStatusMembers r) = false ↔ r.Branch = []) ∧
      (hasKey "context" (gitOpsStatusMembers r) = false ↔ r.Context = []) ∧
      (hasKey "commitID" (gitOpsStatusMembers r) = false ↔ r.CommitID = [])) ∧
    ((hasKey "replicas" (specMembers X c.Spec) = false ↔ c.Spec.Replicas = 0) ∧
      (hasKey "targetPort" (specMembers X c.Spec) = false ↔ c.Spec.TargetPort = 0)) ∧
    ((hasKey "skipGitOpsResourceGeneration" (specMembers X c.Spec) = false ↔
        c.Spec.SkipGitOpsResourceGeneration = false) ∧
      (hasKey "resourceGenerationSkipped" (gitOpsStatusMembers r) = false ↔
        r.ResourceGenerationSkipped = false)) ∧
    (hasKey "env" (specMembers X c.Spec) = false ↔
        (c.Spec.Env = none ∨ c.Spec.Env = some [])) ∧
    (hasKey "git" (unionMembers c.Spec.Source.toComponentSourceUnion) = false ↔
        c.Spec.Source.GitSource = none) ∧
    (hasKey "source" (specMembers X c.Spec) = true ∧
      hasKey "resources" (specMembers X c.Spec) = true ∧
      hasKey "status" (componentMembers X c) = true) ∧
    (("source", JSON.obj (unionMembers c.Spec.Source.toComponentSourceUnion)) ∈
        specMembers X c.Spec ∧
      ("resources", X.encResources c.Spec.Resources) ∈ specMembers X c.Spec ∧
      ("status", JSON.obj (statusMembers c.Status)) ∈ componentMembers X c) := by
  have henv : (nilIfEmpty c.Spec.Env).isSome = false ↔
      (c.Spec.Env = none ∨ c.Spec.Env = some []) := by
    rcases c.Spec.Env with _ | _ | ⟨a, l⟩ <;> simp [nilIfEmpty]
  refine ⟨?_, ?_, ?_, ?_, ?_, ?_, ?_⟩
  · simp [specMembers, gitSourceMembers, gitOpsStatusMembers, hasKey_append, hasKey_member,
      hasKey_stringMember, hasKey_structOmitEmpty, hasKey_stringOmitEmpty,
      hasKey_intOmitEmpty, hasKey_boolOmitEmpty, hasKey_sliceOmitEmpty]
  · simp [specMembers, hasKey_append, hasKey_member, hasKey_stringMember,
      hasKey_structOmitEmpty, hasKey_stringOmitEmpty, hasKey_intOmitEmpty,
      hasKey_boolOmitEmpty, hasKey_sliceOmitEmpty]
  · simp [specMembers, gitOpsStatusMembers, hasKey_append, hasKey_member, hasKey_stringMember,
      hasKey_structOmitEmpty, hasKey_stringOmitEmpty, hasKey_intOmitEmpty,
      hasKey_boolOmitEmpty, hasKey_sliceOmitEmpty]
  · rw [← henv]
    simp [specMembers, hasKey_append, hasKey_member, hasKey_stringMember,
      hasKey_structOmitEmpty, hasKey_stringOmitEmpty, hasKey_intOmitEmpty,
      hasKey_boolOmitEmpty, hasKey_sliceOmitEmpty]
  · simp [unionMembers, hasKey_ptrOmitEmpty]
  · simp [specMembers, componentMembers, hasKey_append, hasKey_member, hasKey_stringMember,
      hasKey_structOmitEmpty, hasKey_stringOmitEmpty, hasKey_intOmitEmpty,
      hasKey_boolOmitEmpty, hasKey_sliceOmitEmpty]
  · simp [specMembers, componentMembers, structOmitEmpty, member, marshalSource, marshalStatus]

/-! ## Serialise, then deserialise -/

theorem unmarshalGitSource_marshal (g : GitSource) :
    unmarshalGitSource (marshalGitSource g) = some g.coerce := by
  obtain ⟨h1, h2, h3, h4, h5⟩ := getKey_gitSourceMembers g
  simp only [unmarshalGitSource, marshalGitSource, h1, h2, h3, h4, h5, decString_omitEmpty,
    decString_text]
  rfl

theorem unmarshalSource_marshal (s : ComponentSource) :
    unmarshalSource (marshalSource s) = some s.coerce := by
  obtain ⟨⟨g⟩⟩ := s
  cases g with
  | none =>
    simp [unmarshalSource, marshalSource, unionMembers, ptrOmitEmpty, getKey, decPtr,
      ComponentSource.coerce]
  | some g =>
    have hg := unmarshalGitSource_marshal g
    have hobj : marshalGitSource g = .obj (gitSourceMembers g) := rfl
    simp only [unmarshalSource, marshalSource, unionMembers, ptrOmitEmpty, getKey, if_true]
    rw [hobj] at hg ⊢
    simp [decPtr, hg, ComponentSource.coerce]

/-- Reading back the items of a serialised slice: one item read per item
written, in the same order. -/
theorem decItems_map_enc {α : Type} (enc : α → JSON) (dec : JSON → Option α) (l : List α)
    (h : ∀ a ∈ l, (dec (enc a)).isSome = true) :
    ∃ l' : List α, decItems dec (l.map enc) = some l' ∧
      List.Forall₂ (fun a a' => dec (enc a) = some a') l l' := by
  induction l with
  | nil => exact ⟨[], rfl, List.Forall₂.nil⟩
  | cons a t ih =>
    obtain ⟨t', ht', hrel⟩ := ih (fun b hb => h b (List.mem_cons_of_mem _ hb))
    obtain ⟨a', ha'⟩ := Option.isSome_iff_exists.mp (h a (List.mem_cons_self _ _))
    refine ⟨a' :: t', ?_, List.Forall₂.cons ha' hrel⟩
    simp [decItems, ha', ht']

/-- Reading back a serialised slice field tagged `omitempty`. -/
theorem decSlice_omitEmpty {α : Type} (enc : α → JSON) (dec : JSON → Option α)
    (xs : Option (List α)) (h : ∀ a ∈ xs.getD [], (dec (enc a)).isSome = true) :
    ∃ ys : Option (List α),
      decSlice dec ((nilIfEmpty xs).map (fun l => .arr (l.map enc))) = some ys ∧
      List.Forall₂ (fun a a' => dec (enc a) = some a') (xs.getD []) (ys.getD []) ∧
      (ys = none ↔ (xs = none ∨ xs = some [])) := by
  rcases xs with _ | _ | ⟨a, l⟩
  · exact ⟨none, rfl, List.Forall₂.nil, by simp⟩
  · exact ⟨none, rfl, List.Forall₂.nil, by simp⟩
  · obtain ⟨l', hl', hrel⟩ := decItems_map_enc enc dec (a :: l) h
    refine ⟨some l', ?_, hrel, by simp⟩
    simp only [nilIfEmpty, Option.map_some', decSlice, hl']

theorem forall₂_index {α : Type} (R : α → α → Prop) (l l' : List α)
    (h : List.Forall₂ R l l') :
    l'.length = l.length ∧
      ∀ (i : Nat) (a : α), l[i]? = some a → ∃ a', l'[i]? = some a' ∧ R a a' := by
  induction h with
  | nil => exact ⟨rfl, fun i a hi => by simp at hi⟩
  | cons hab _ ih =>
    refine ⟨by simp [ih.1], ?_⟩
    intro i a hi
    cases i with
    | zero =>
      simp only [List.getElem?_cons_zero, Option.some.injEq] at hi
      exact ⟨_, by simp, hi ▸ hab⟩
    | succ j =>
      simp only [List.getElem?_cons_succ] at hi
      simpa using ih.2 j a hi

theorem forall₂_eq_of_fixed {α : Type} (f : α → Option α) (l l' : List α)
    (h : List.Forall₂ (fun a a' => f a = some a') l l') (hfix : ∀ a ∈ l, f a = some a) :
    l' = l := by
  induction h with
  | nil => rfl
  | cons hab _ ih =>
    have h1 := hfix _ (List.mem_cons_self _ _)
    rw [h1] at hab
    rw [← Option.some.inj hab, ih (fun b hb => hfix b (List.mem_cons_of_mem _ hb))]

/-- Reading back a serialised `ComponentSpec`: every string coerced to valid
UTF-8, `resources` and the entries of `env` as their decoders read them, an
empty `env` slice read as nil. -/
theorem unmarshalSpec_marshal (X : External) (s : ComponentSpec X) (hs : s.IntsInRange)
    (r' : X.ResourceRequirements)
    (hr : X.decResources (X.encResources s.Resources) = some r')
    (env' : Option (List X.EnvVar))
    (henv : decSlice X.decEnvVar
      ((nilIfEmpty s.Env).map (fun l => .arr (l.map X.encEnvVar))) = some env') :
    unmarshalSpec X (marshalSpec X s) =
      some ⟨s.ComponentName.coerce, s.Application.coerce, s.Secret.coerce, s.Source.coerce, r',
        s.Replicas, s.TargetPort, s.Route.coerce, env', s.ContainerImage.coerce,
        s.SkipGitOpsResourceGeneration⟩ := by
  obtain ⟨h1, h2, h3, h4, h5, h6, h7, h8, h9, h10, h11⟩ := getKey_specMembers X s
  simp only [unmarshalSpec, marshalSpec, h1, h2, h3, h4, h5, h6, h7, h8, h9, h10, h11,
    decString_omitEmpty, decString_text, decBool_omitEmpty, decInt_omitEmpty _ hs.1,
    decInt_omitEmpty _ hs.2, henv, decStruct, unmarshalSource_marshal, hr]
  rfl

theorem unmarshalGitOpsStatus_marshal (g : GitOpsStatus) :
    unmarshalGitOpsStatus (marshalGitOpsStatus g) = some g.coerce := by
  obtain ⟨h1, h2, h3, h4, h5⟩ := getKey_gitOpsStatusMembers g
  simp only [unmarshalGitOpsStatus, marshalGitOpsStatus, h1, h2, h3, h4, h5,
    decString_omitEmpty, decBool_omitEmpty]
  rfl

theorem unmarshalStatus_marshal (s : ComponentStatus) :
    unmarshalStatus (marshalStatus s) = some s.coerce := by
  obtain ⟨h1, h2⟩ := getKey_statusMembers s
  simp only [unmarshalStatus, marshalStatus, h1, h2, decStruct, unmarshalGitOpsStatus_marshal,
    decString_text]
  rfl

/-- Reading back a serialised `Component`. -/
theorem unmarshalComponent_marshal (X : External) (hX : X.Decodes) (c : Component X)
    (hc : c.IntsInRange) :
    ∃ (t' : X.TypeMeta) (m' : X.ObjectMeta) (r' : X.ResourceRequirements)
      (env' : Option (List X.EnvVar)),
      X.decTypeMeta (componentMembers X c) = some t' ∧
      X.decObjectMeta (X.encObjectMeta c.ObjectMeta) = some m' ∧
      X.decResources (X.encResources c.Spec.Resources) = some r' ∧
      List.Forall₂ (fun e e' => X.decEnvVar (X.encEnvVar e) = some e')
        (c.Spec.Env.getD []) (env'.getD []) ∧
      (env' = none ↔ (c.Spec.Env = none ∨ c.Spec.Env = some [])) ∧
      unmarshalComponent X (marshalComponent X c) =
        some ⟨t', m',
          ⟨c.Spec.ComponentName.coerce, c.Spec.Application.coerce, c.Spec.Secret.coerce,
            c.Spec.Source.coerce, r', c.Spec.Replicas, c.Spec.TargetPort, c.Spec.Route.coerce,
            env', c.Spec.ContainerImage.coerce, c.Spec.SkipGitOpsResourceGeneration⟩,
          c.Status.coerce⟩ := by
  have hrest : ∀ k : String, k ≠ "metadata" → k ≠ "spec" → k ≠ "status" →
      getKey k (structOmitEmpty "metadata" (X.encObjectMeta c.ObjectMeta) ++
        member "spec" (marshalSpec X c.Spec) ++
        structOmitEmpty "status" (marshalStatus c.Status)) = none := by
    intro k hm hs ht
    simp [getKey_append, getKey_member, getKey_structOmitEmpty, Ne.symm hm, Ne.symm hs,
      Ne.symm ht]
  have hmembers : componentMembers X c = X.encTypeMeta c.TypeMeta ++
      (structOmitEmpty "metadata" (X.encObjectMeta c.ObjectMeta) ++
        member "spec" (marshalSpec X c.Spec) ++
        structOmitEmpty "status" (marshalStatus c.Status)) := by
    simp [componentMembers, List.append_assoc]
  have hmeta : getKey "metadata" (componentMembers X c) =
      some (X.encObjectMeta c.ObjectMeta) := by
    rw [hmembers, getKey_append, hX.typeMeta_keys _ _ (Or.inl rfl)]
    simp [getKey_append, getKey_member, getKey_structOmitEmpty]
  have hspec : getKey "spec" (componentMembers X c) = some (marshalSpec X c.Spec) := by
    rw [hmembers, getKey_append, hX.typeMeta_keys _ _ (Or.inr (Or.inl rfl))]
    simp [getKey_append, getKey_member, getKey_structOmitEmpty]
  have hstatus : getKey "status" (componentMembers X c) = some (marshalStatus c.Status) := by
    rw [hmembers, getKey_append, hX.typeMeta_keys _ _ (Or.inr (Or.inr rfl))]
    simp [getKey_append, getKey_member, getKey_structOmitEmpty]
  obtain ⟨t', ht'⟩ : ∃ t', X.decTypeMeta (componentMembers X c) = some t' := by
    rw [hmembers]
    exact Option.isSome_iff_exists.mp (hX.typeMeta _ _ hrest)
  obtain ⟨m', hm'⟩ := Option.isSome_iff_exists.mp (hX.objectMeta c.ObjectMeta)
  obtain ⟨r', hr'⟩ := Option.isSome_iff_exists.mp (hX.resources c.Spec.Resources)
  obtain ⟨env', henv', hrel, hnil⟩ :=
    decSlice_omitEmpty X.encEnvVar X.decEnvVar c.Spec.Env (fun e _ => hX.envVar e)
  refine ⟨t', m', r', env', ht', hm', hr', hrel, hnil, ?_⟩
  simp only [unmarshalComponent, marshalComponent, hmeta, hspec, hstatus, ht', decStruct, hm',
    unmarshalSpec_marshal X c.Spec hc r' hr' env' henv', unmarshalStatus_marshal]
  rfl

theorem coerce_of_validSource (s : ComponentSource) (h : s.ValidUTF8) : s.coerce = s := by
  obtain ⟨⟨g⟩⟩ := s
  cases g with
  | none => rfl
  | some g =>
    obtain ⟨h1, h2, h3, h4, h5⟩ := h g rfl
    simp [ComponentSource.coerce, GitSource.coerce, coerce_of_valid _ h1, coerce_of_valid _ h2,
      coerce_of_valid _ h3, coerce_of_valid _ h4, coerce_of_valid _ h5]

theorem coerce_of_validStatus (s : ComponentStatus) (h : s.ValidUTF8) : s.coerce = s := by
  obtain ⟨h1, h2, h3, h4, h5⟩ := h
  simp [ComponentStatus.coerce, GitOpsStatus.coerce, coerce_of_valid _ h1, coerce_of_valid _ h2,
    coerce_of_valid _ h3, coerce_of_valid _ h4, coerce_of_valid _ h5]

/-- C8, refuted as stated. A component whose `componentName` and status `name`
(neither tagged `omitempty`) hold the byte `0xFF` is read back with U+FFFD in
both. -/
theorem invalid_utf8_not_restored :
    invalidNameComponent.Spec.ComponentName = [byte 0xFF] ∧
      invalidNameComponent.Status.Name = [byte 0xFF] ∧
      (unmarshalComponent External.sample
          (marshalComponent External.sample invalidNameComponent)).map
        (fun c => (c.Spec.ComponentName, c.Status.Name)) =
        some ([byte 0xEF, byte 0xBF, byte 0xBD], [byte 0xEF, byte 0xBF, byte 0xBD]) := by
  refine ⟨rfl, rfl, ?_⟩
  obtain ⟨t', m', r', env', -, -, -, -, -, h⟩ :=
    unmarshalComponent_marshal External.sample sample_decodes invalidNameComponent
      (by decide)
  rw [h]
  show some (invalidNameComponent.Spec.ComponentName.coerce,
    invalidNameComponent.Status.coerce.Name) = _
  decide

/-- C8, amended. For a component whose strings are valid UTF-8 (the decoders of
the imported types reading what their encoders write, the `int` fields holding
64-bit values), deserialising the serialisation succeeds and gives back a
component equal in every field of a type declared in this file; `metadata`,
`resources` and the entries of `env` come back as their imported decoders read
them, entry by entry in the same order, and `env` is nil exactly when it was nil
or empty. -/
theorem component_roundtrip (X : External) (hX : X.Decodes) (c : Component X)
    (hc : c.IntsInRange) (hv : c.ValidUTF8) :
    ∃ c' : Component X, unmarshalComponent X (marshalComponent X c) = some c' ∧
      c'.Spec.ComponentName = c.Spec.ComponentName ∧
      c'.Spec.Application = c.Spec.Application ∧
      c'.Spec.Secret = c.Spec.Secret ∧
      c'.Spec.Source = c.Spec.Source ∧
      c'.Spec.Replicas = c.Spec.Replicas ∧
      c'.Spec.TargetPort = c.Spec.TargetPort ∧
      c'.Spec.Route = c.Spec.Route ∧
      c'.Spec.ContainerImage = c.Spec.ContainerImage ∧
      c'.Spec.SkipGitOpsResourceGeneration = c.Spec.SkipGitOpsResourceGeneration ∧
      c'.Status = c.Status ∧
      X.decTypeMeta (componentMembers X c) = some c'.TypeMeta ∧
      X.decObjectMeta (X.encObjectMeta c.ObjectMeta) = some c'.ObjectMeta ∧
      X.decResources (X.encResources c.Spec.Resources) = some c'.Spec.Resources ∧
      List.Forall₂ (fun e e' => X.decEnvVar (X.encEnvVar e) = some e')
        (c.Spec.Env.getD []) (c'.Spec.Env.getD []) ∧
      (c'.Spec.Env = none ↔ (c.Spec.Env = none ∨ c.Spec.Env = some [])) := by
  obtain ⟨t', m', r', env', ht', hm', hr', hrel, hnil, h⟩ :=
    unmarshalComponent_marshal X hX c hc
  obtain ⟨v1, v2, v3, v4, v5, v6, v7⟩ := hv
  exact ⟨_, h, coerce_of_valid _ v1, coerce_of_valid _ v2, coerce_of_valid _ v3,
    coerce_of_validSource _ v4, rfl, rfl, coerce_of_valid _ v5, coerce_of_valid _ v6, rfl,
    coerce_of_validStatus _ v7, ht', hm', hr', hrel, hnil⟩

theorem valid_ofText (t : String) : (GoString.ofText t).ValidUTF8 := ⟨t, rfl⟩

theorem valid_nil : GoString.ValidUTF8 [] := ⟨"", rfl⟩

theorem sampleComponent_validUTF8 : sampleComponent.ValidUTF8 := by
  refine ⟨valid_ofText _, valid_ofText _, valid_ofText _, ?_, valid_nil, valid_nil,
    valid_ofText _, valid_ofText _, valid_ofText _, valid_ofText _, valid_ofText _⟩
  intro g hg
  have hg' : g = ⟨GoString.ofText "https://example.com/repo.git", [], [], [], []⟩ :=
    (Option.some.inj hg).symm
  subst hg'
  exact ⟨valid_ofText _, valid_nil, valid_nil, valid_nil, valid_nil⟩

theorem component_roundtrip_witness :
    External.sample.Decodes ∧ sampleComponent.IntsInRange ∧ sampleComponent.ValidUTF8 ∧
      ∃ c' : Component External.sample,
        unmarshalComponent External.sample (marshalComponent External.sample sampleComponent) =
          some c' ∧
        c'.Spec.ComponentName = sampleComponent.Spec.ComponentName ∧
        c'.Spec.Application = sampleComponent.Spec.Application ∧
        c'.Spec.Secret = sampleComponent.Spec.Secret ∧
        c'.Spec.Source = sampleComponent.Spec.Source ∧
        c'.Spec.Replicas = sampleComponent.Spec.Replicas ∧
        c'.Spec.TargetPort = sampleComponent.Spec.TargetPort ∧
        c'.Spec.Route = sampleComponent.Spec.Route ∧
        c'.Spec.ContainerImage = sampleComponent.Spec.ContainerImage ∧
        c'.Spec.SkipGitOpsResourceGeneration =
          sampleComponent.Spec.SkipGitOpsResourceGeneration ∧
        c'.Status = sampleComponent.Status ∧
        External.sample.decTypeMeta (componentMembers External.sample sampleComponent) =
          some c'.TypeMeta ∧
        External.sample.decObjectMeta (External.sample.encObjectMeta sampleComponent.ObjectMeta) =
          some c'.ObjectMeta ∧
        External.sample.decResources
            (External.sample.encResources sampleComponent.Spec.Resources) =
          some c'.Spec.Resources ∧
        List.Forall₂
          (fun e e' => External.sample.decEnvVar (External.sample.encEnvVar e) = some e')
          (sampleComponent.Spec.Env.getD []) (c'.Spec.Env.getD []) ∧
        (c'.Spec.Env = none ↔
          (sampleComponent.Spec.Env = none ∨ sampleComponent.Spec.Env = some [])) :=
  ⟨sample_decodes, by decide, sampleComponent_validUTF8,
    component_roundtrip External.sample sample_decodes sampleComponent (by decide)
      sampleComponent_validUTF8⟩

/-- C9, refuted as stated. An `env` entry whose value holds the byte `0xFF` is
read back with U+FFFD as its value: the entry at index 0 is not the same. -/
theorem invalid_utf8_env_entry_changed :
    invalidEnvSpec.Env = some [⟨GoString.ofText "A", [byte 0xFF]⟩] ∧
      (unmarshalSpec External.sample (marshalSpec External.sample invalidEnvSpec)).map
          (fun s => s.Env) =
        some (some [⟨GoString.ofText "A", [byte 0xEF, byte 0xBF, byte 0xBD]⟩]) := by
  refine ⟨rfl, ?_⟩
  have henv : decSlice NameValue.dec
      ((nilIfEmpty (some [(⟨GoString.ofText "A", [byte 0xFF]⟩ : NameValue)])).map
        (fun l => .arr (l.map NameValue.enc))) =
      some (some [⟨GoString.ofText "A", [byte 0xEF, byte 0xBF, byte 0xBD]⟩]) := by
    decide
  rw [unmarshalSpec_marshal External.sample invalidEnvSpec (by decide) () rfl _ henv]
  rfl

/-- C9, amended. For a spec with a non-empty `env` (its `int` fields holding
64-bit values, its `resources` and `env` entries readable by their imported
decoders), serialising and deserialising gives back an `env` of the same length
whose entry at every index is what the decoder reads from the serialisation of
the original entry at that index: no entry is moved, dropped or merged.  The
`env` is the same sequence whenever each of its entries round-trips on its
own. -/
theorem env_order_preserved (X : External) (s : ComponentSpec X) (hs : s.IntsInRange)
    (env : List X.EnvVar) (henv : s.Env = some env) (hne : env ≠ [])
    (hres : (X.decResources (X.encResources s.Resources)).isSome = true)
    (hdec : ∀ e ∈ env, (X.decEnvVar (X.encEnvVar e)).isSome = true) :
    ∃ (s' : ComponentSpec X) (env' : List X.EnvVar),
      unmarshalSpec X (marshalSpec X s) = some s' ∧ s'.Env = some env' ∧
        env'.length = env.length ∧
        (∀ (i : Nat) (e : X.EnvVar), env[i]? = some e →
          ∃ e', env'[i]? = some e' ∧ X.decEnvVar (X.encEnvVar e) = some e') ∧
        ((∀ e ∈ env, X.decEnvVar (X.encEnvVar e) = some e) → env' = env) := by
  obtain ⟨r', hr'⟩ := Option.isSome_iff_exists.mp hres
  obtain ⟨env', hl', hrel⟩ := decItems_map_enc X.encEnvVar X.decEnvVar env hdec
  have hslice : decSlice X.decEnvVar
      ((nilIfEmpty s.Env).map (fun l => .arr (l.map X.encEnvVar))) = some (some env') := by
    rw [henv]
    cases env with
    | nil => exact absurd rfl hne
    | cons a l => simp only [nilIfEmpty, Option.map_some', decSlice, hl']
  obtain ⟨hlen, hidx⟩ := forall₂_index _ env env' hrel
  exact ⟨_, env', unmarshalSpec_marshal X s hs r' hr' _ hslice, rfl, hlen, hidx,
    fun hfix => forall₂_eq_of_fixed (fun e => X.decEnvVar (X.encEnvVar e)) env env' hrel hfix⟩

theorem env_order_preserved_witness :
    gitSpec.IntsInRange ∧
      gitSpec.Env = some [⟨GoString.ofText "B", GoString.ofText "2"⟩,
        ⟨GoString.ofText "A", GoString.ofText "1"⟩,
        ⟨GoString.ofText "B", GoString.ofText "2"⟩] ∧
      ([⟨GoString.ofText "B", GoString.ofText "2"⟩, ⟨GoString.ofText "A", GoString.ofText "1"⟩,
        ⟨GoString.ofText "B", GoString.ofText "2"⟩] : List NameValue) ≠ [] ∧
      (External.sample.decResources (External.sample.encResources gitSpec.Resources)).isSome =
        true ∧
      (∀ e ∈ ([⟨GoString.ofText "B", GoString.ofText "2"⟩,
          ⟨GoString.ofText "A", GoString.ofText "1"⟩,
          ⟨GoString.ofText "B", GoString.ofText "2"⟩] : List NameValue),
        (External.sample.decEnvVar (External.sample.encEnvVar e)).isSome = true) ∧
      ∃ (s' : ComponentSpec External.sample) (env' : List NameValue),
        unmarshalSpec External.sample (marshalSpec External.sample gitSpec) = some s' ∧
          s'.Env = some env' ∧
          env'.length = ([⟨GoString.ofText "B", GoString.ofText "2"⟩,
            ⟨GoString.ofText "A", GoString.ofText "1"⟩,
            ⟨GoString.ofText "B", GoString.ofText "2"⟩] : List NameValue).length ∧
          (∀ (i : Nat) (e : NameValue),
            ([⟨GoString.ofText "B", GoString.ofText "2"⟩,
              ⟨GoString.ofText "A", GoString.ofText "1"⟩,
              ⟨GoString.ofText "B", GoString.ofText "2"⟩] : List NameValue)[i]? = some e →
            ∃ e', env'[i]? = some e' ∧
              External.sample.decEnvVar (External.sample.encEnvVar e) = some e') ∧
          ((∀ e ∈ ([⟨GoString.ofText "B", GoString.ofText "2"⟩,
              ⟨GoString.ofText "A", GoString.ofText "1"⟩,
              ⟨GoString.ofText "B", GoString.ofText "2"⟩] : List NameValue),
            External.sample.decEnvVar (External.sample.encEnvVar e) = some e) →
            env' = [⟨GoString.ofText "B", GoString.ofText "2"⟩,
              ⟨GoString.ofText "A", GoString.ofText "1"⟩,
              ⟨GoString.ofText "B", GoString.ofText "2"⟩]) :=
  ⟨by decide, rfl, by decide, rfl, fun e _ => sample_decodes.envVar e,
    env_order_preserved External.sample gitSpec (by decide) _ rfl (by decide) rfl
      (fun e _ => sample_decodes.envVar e)⟩

end V1alpha1
